import Mathlib

/-!
Verification development for the CatBase course-catalog ingestion and
rating-reconciliation pipeline.  The Python sources are embedded shallowly:
strings are handled as `List Char`, regular-expression operations are
translated into explicit recursive matchers with the same semantics on the
relevant pattern class, SQLite tables become Lean lists of row structures,
and the crawl loop becomes an explicit step function on a state record.
-/

namespace CatBase

/-! ### Python-style string primitives -/

/-- Whitespace as recognized by Python `str.strip`, `\s` and `str.split()`
for the ASCII range (space, tab, newline, carriage return, vertical tab,
form feed). -/
def isPySpace (c : Char) : Bool :=
  c = ' ' || c = '\t' || c = '\n' || c = '\r' || c = '\x0b' || c = '\x0c'

/-- Python `str.strip()` on a character list. -/
def pyStripL (l : List Char) : List Char :=
  ((l.dropWhile isPySpace).reverse.dropWhile isPySpace).reverse

/-- Python `str.strip()`. -/
def pyStrip (s : String) : String := ⟨pyStripL s.data⟩

/-- Right-hand strip only (Python `str.rstrip()`), used to reason about
`pyStripL` on appends. -/
def pyStripR (l : List Char) : List Char :=
  (l.reverse.dropWhile isPySpace).reverse

/-- Worker for `collapseWsL`: `inRun` records whether the previous character
was whitespace, so each maximal whitespace run emits exactly one space. -/
def collapseWsGo (inRun : Bool) : List Char → List Char
  | [] => []
  | c :: rest =>
    if isPySpace c then
      if inRun then collapseWsGo true rest else ' ' :: collapseWsGo true rest
    else c :: collapseWsGo false rest

/-- `re.sub(r"\s+", " ", ·)`: every maximal whitespace run becomes one space. -/
def collapseWsL (l : List Char) : List Char := collapseWsGo false l

/-- Python `str.lower()` (ASCII case mapping). -/
def pyLowerL (l : List Char) : List Char := l.map Char.toLower

/-- Python `str.upper()` (ASCII case mapping). -/
def pyUpperL (l : List Char) : List Char := l.map Char.toUpper

/-- Word character for `\b` in `re` (`[A-Za-z0-9_]` on ASCII input). -/
def isWordChar (c : Char) : Bool :=
  ('a' ≤ c && c ≤ 'z') || ('A' ≤ c && c ≤ 'Z') || c.isDigit || c = '_'

def isAsciiLetter (c : Char) : Bool :=
  ('a' ≤ c && c ≤ 'z') || ('A' ≤ c && c ≤ 'Z')

/-- Python `str.split(sep)` for a single-character separator (keeps empty
segments, like Python). -/
def pySplitOnChar (sep : Char) (l : List Char) : List (List Char) :=
  match l with
  | [] => [[]]
  | c :: rest =>
    let r := pySplitOnChar sep rest
    if c = sep then [] :: r
    else
      match r with
      | [] => [[c]]
      | seg :: segs => (c :: seg) :: segs

/-- Python `sep.join(parts)` generalized over lists of characters. -/
def pyJoinL (sep : List Char) : List (List Char) → List Char
  | [] => []
  | [p] => p
  | p :: ps => p ++ sep ++ pyJoinL sep ps

/-! ### Identity Resolver (src/backend/scraper/rmp_scrape.py lines 117-133) -/

namespace Rmp

/-- Whether the scan position is at a `\b` boundary given the previous
character and the fact that the next character is a word character. -/
def boundaryBefore : Option Char → Bool
  | none => true
  | some p => !isWordChar p

/-- `re.sub(r"\b([A-Za-z])\.\b", r"\1", ·)` from `normalize_name`, embedded
with Python `re` word-boundary semantics: the single letter must be preceded
by a non-word character (or the start), and — because `\b` sits right after
the literal period, which is itself a non-word character — the character
immediately after the period must be a word character for the pattern to
match at all.  `prev` is the character just before the scan position; the
fuel argument (one unit per input character) keeps the recursion
structural. -/
def subInitialDotGo : Nat → Option Char → List Char → List Char
  | 0, _, l => l
  | _ + 1, _, [] => []
  | fuel + 1, prev, c :: rest =>
    match rest with
    | '.' :: d :: rest2 =>
      if boundaryBefore prev && isAsciiLetter c && isWordChar d then
        c :: subInitialDotGo fuel (some '.') (d :: rest2)
      else
        c :: subInitialDotGo fuel (some c) rest
    | _ => c :: subInitialDotGo fuel (some c) rest

def subInitialDot (l : List Char) : List Char :=
  subInitialDotGo l.length none l

/-- `normalize_name` (rmp_scrape.py lines 117-128): strip, comma-reorder
family name to the end, collapse whitespace, attempt to drop periods after
single letters, strip again. -/
def normalize_name (name : String) : String :=
  let l := pyStripL name.data
  let l :=
    if l.contains ',' then
      let parts := (pySplitOnChar ',' l).map pyStripL
      if parts.length ≥ 2 then
        match parts with
        | [] => l
        | last :: restParts =>
          match restParts with
          | [] => l
          | first :: rest => pyJoinL [' '] ([first] ++ rest ++ [last])
      else l
    else l
  let l := collapseWsL l
  let l := subInitialDot l
  ⟨pyStripL l⟩

/-- `key_name` (rmp_scrape.py lines 130-133): lowercase the canonical form,
delete every character outside `[a-z\s]`, collapse whitespace, strip. -/
def key_name (name : String) : String :=
  let l := pyLowerL (normalize_name name).data
  let l := l.filter (fun c => ('a' ≤ c && c ≤ 'z') || isPySpace c)
  ⟨pyStripL (collapseWsL l)⟩

/-! ### Crawl loop state (src/backend/scraper/rmp_scrape.py lines 281-343)

The browser readings made during one `while True` iteration are collected in
`CrawlObs`: `total` is the card count read at the top of the loop,
`clicked` the result of `click_show_more`, and `newTotal` the card count
re-read after the click/scroll.  The mutable loop variables
(`last_processed`, `stagnant_loops`) form `CrawlState`. -/

structure CrawlObs where
  total : Nat
  clicked : Bool
  newTotal : Nat
deriving DecidableEq, Repr

structure CrawlState where
  lastProcessed : Nat
  stagnantLoops : Nat
deriving DecidableEq, Repr

/-- One full `while True` iteration of `main` (lines 290-343), restricted to
the variables that drive termination:
`stagnant_loops = stagnant_loops + 1 if total == last_processed else 0`,
then `last_processed = total`, then after the expansion attempt
`if new_total > total or clicked: stagnant_loops = 0`. -/
def crawlCycle (s : CrawlState) (o : CrawlObs) : CrawlState :=
  let stagnant1 := if o.total = s.lastProcessed then s.stagnantLoops + 1 else 0
  let stagnant2 := if o.newTotal > o.total ∨ o.clicked = true then 0 else stagnant1
  { lastProcessed := o.total, stagnantLoops := stagnant2 }

/-- Run the crawl loop against an environment `env` giving the observations
of each cycle; returns the number of cycles executed when the
`stagnant_loops >= 4` break fires within the given fuel. -/
def crawlRunAux (env : Nat → CrawlObs) : Nat → Nat → CrawlState → Option Nat
  | 0, _, _ => none
  | fuel + 1, i, s =>
    let s2 := crawlCycle s (env i)
    if 4 ≤ s2.stagnantLoops then some (i + 1) else crawlRunAux env fuel (i + 1) s2

def crawlRun (env : Nat → CrawlObs) (fuel : Nat) : Option Nat :=
  crawlRunAux env fuel 0 ⟨0, 0⟩

/-- State before cycle `k` of the crawl loop. -/
def crawlStates (env : Nat → CrawlObs) : Nat → CrawlState
  | 0 => ⟨0, 0⟩
  | k + 1 => crawlCycle (crawlStates env k) (env k)

/-- A stagnation cycle in the spec's sense: no growth in visible card count
and no successful expansion click. -/
def isStagnantCycle (s : CrawlState) (o : CrawlObs) : Bool :=
  (o.total == s.lastProcessed) && !(o.newTotal > o.total || o.clicked)

/-- Number of stagnant cycles among the first `c` cycles. -/
def stagnantCount (env : Nat → CrawlObs) (c : Nat) : Nat :=
  ((List.range c).filter (fun i => isStagnantCycle (crawlStates env i) (env i))).length

/-- Environment of a listing that always shows `n` cards and whose
expansion control never succeeds. -/
def staticEnv (n : Nat) : Nat → CrawlObs := fun _ => ⟨n, false, n⟩

end Rmp

/-! ### Numeric parsing: Python `float` and the credits parsers -/

/-- Value classes producible by Python `float(...)`; finite values are kept
exact as rationals. -/
inductive PyVal where
  | num (q : ℚ)
  | nan
  | inf
  | ninf
deriving DecidableEq, Repr

/-- Leading decimal digits of a character list, and the remainder. -/
def takeDigits : List Char → List Char × List Char
  | [] => ([], [])
  | c :: rest =>
    if c.isDigit then
      let (d, r) := takeDigits rest
      (c :: d, r)
    else ([], c :: rest)

def digitsVal (l : List Char) : Nat :=
  l.foldl (fun a c => a * 10 + (c.toNat - 48)) 0

def pow10 : Nat → ℚ
  | 0 => 1
  | n + 1 => 10 * pow10 n

/-- Value of `<ip>.<fp>` as a rational (the integer case is kept free of
rational arithmetic so that concrete runs reduce in the kernel). -/
def decMantissa (ip fp : List Char) : ℚ :=
  if fp.isEmpty then (digitsVal ip : ℚ)
  else (digitsVal ip : ℚ) + (digitsVal fp : ℚ) / pow10 fp.length

/-- `m * 10 ^ e`, with the exponent-zero case the identity. -/
def applyExp (q : ℚ) : Int → ℚ
  | Int.ofNat 0 => q
  | Int.ofNat (n + 1) => q * pow10 (n + 1)
  | Int.negSucc n => q / pow10 (n + 1)

/-- Optional exponent suffix `([eE][+-]?\d+)?$`; returns the exponent, or
`none` when the remainder is not a valid end of a float literal. -/
def parseExpPart : List Char → Option Int
  | [] => some 0
  | e :: r =>
    if e = 'e' ∨ e = 'E' then
      let (sign, r2) : Int × List Char :=
        match r with
        | '+' :: r3 => (1, r3)
        | '-' :: r3 => (-1, r3)
        | _ => (1, r)
      let (d, r4) := takeDigits r2
      if d.isEmpty then none
      else if r4.isEmpty then some (sign * (digitsVal d : Int))
      else none
    else none

/-- Core of CPython `float(...)` for a sign-stripped literal: digits with an
optional fractional part (at least one digit overall) and an optional
exponent. -/
def pyFloatCore (l : List Char) : Option ℚ :=
  let (ip, r1) := takeDigits l
  match r1 with
  | '.' :: r2 =>
    let (fp, r3) := takeDigits r2
    if ip.isEmpty && fp.isEmpty then none
    else (parseExpPart r3).map (fun e => applyExp (decMantissa ip fp) e)
  | _ =>
    if ip.isEmpty then none
    else (parseExpPart r1).map (fun e => applyExp (digitsVal ip : ℚ) e)

/-- CPython `float(str)` on ASCII input (PEP-515 underscore separators are
not modeled): strip whitespace, optional sign, then either
`inf`/`infinity`/`nan` (case-insensitive) or a decimal literal.  `none`
models `ValueError`. -/
def pyFloatL (l0 : List Char) : Option PyVal :=
  let l1 := pyStripL l0
  let sl : Bool × List Char :=
    match l1 with
    | '+' :: r => (false, r)
    | '-' :: r => (true, r)
    | _ => (false, l1)
  let low := pyLowerL sl.2
  if low = "inf".data ∨ low = "infinity".data then
    some (if sl.1 then .ninf else .inf)
  else if low = "nan".data then some .nan
  else (pyFloatCore sl.2).map (fun q => .num (if sl.1 then -q else q))

def pyFloat (s : String) : Option PyVal := pyFloatL s.data

def listPrefix : List Char → List Char → Bool
  | [], _ => true
  | _ :: _, [] => false
  | p :: ps, q :: qs => p = q && listPrefix ps qs

/-- Python `str.replace(pat, rep)` (all occurrences, left to right,
non-overlapping); fuel is one unit per input character, enough whenever the
pattern is non-empty. -/
def pyReplaceGo (pat rep : List Char) : Nat → List Char → List Char
  | 0, l => l
  | _ + 1, [] => []
  | fuel + 1, c :: rest =>
    if listPrefix pat (c :: rest) then
      rep ++ pyReplaceGo pat rep fuel ((c :: rest).drop pat.length)
    else c :: pyReplaceGo pat rep fuel rest

def pyReplaceL (pat rep l : List Char) : List Char :=
  pyReplaceGo pat rep l.length l

/-- `\d+(?:\.\d+)?` at the head of the list, with the regex backtracking
behavior: a period not followed by a digit is left unconsumed. -/
def parseNumTok (l : List Char) : Option (ℚ × List Char) :=
  let (d, r1) := takeDigits l
  if d.isEmpty then none
  else
    match r1 with
    | '.' :: r2 =>
      let (f, r3) := takeDigits r2
      if f.isEmpty then some ((digitsVal d : ℚ), '.' :: r2)
      else some (decMantissa d f, r3)
    | _ => some ((digitsVal d : ℚ), r1)

/-- `re.match(r"^\s*(\d+(?:\.\d+)?)\s*-\s*(\d+(?:\.\d+)?)\s*$", ·)` from
`parse_credits` (ingest_all_terms.py line 75). -/
def creditRange (l : List Char) : Option (ℚ × ℚ) :=
  match parseNumTok (l.dropWhile isPySpace) with
  | none => none
  | some (a, r) =>
    match r.dropWhile isPySpace with
    | '-' :: r2 =>
      match parseNumTok (r2.dropWhile isPySpace) with
      | none => none
      | some (b, r3) =>
        if (r3.dropWhile isPySpace).isEmpty then some (a, b) else none
    | _ => none

namespace AllTerms

/-- `parse_credits` (src/backend/scripts/ingest_all_terms.py lines 67-82):
strip; empty gives `(None, None)`; replace `to`, en dash and em dash by
`-`; try the two-number range regex; otherwise try `float`; otherwise
`(None, None)`. -/
def parse_credits (s : Option String) : Option PyVal × Option PyVal :=
  let l := pyStripL (s.getD "").data
  if l.isEmpty then (none, none)
  else
    let l2 := pyReplaceL "—".data "-".data
      (pyReplaceL "–".data "-".data (pyReplaceL "to".data "-".data l))
    match creditRange l2 with
    | some (a, b) => (some (.num a), some (.num b))
    | none =>
      match pyFloatL l2 with
      | some v => (some v, some v)
      | none => (none, none)

end AllTerms

/-- Split at the first occurrence of `sep`, like Python `split(sep, 1)`
when `sep` occurs. -/
def splitFirst (sep : Char) : List Char → List Char × List Char
  | [] => ([], [])
  | c :: rest =>
    if c = sep then ([], rest)
    else
      let (a, b) := splitFirst sep rest
      (c :: a, b)

namespace UvmCurrent

/-- `parse_credits` (src/backend/scripts/ingest_uvm_current.py lines 25-39):
falsy or placeholder input gives `(None, None)`; a string containing `-` is
split once on it and both halves must parse as floats; otherwise the whole
string must parse as a float. -/
def parse_credits (s : Option String) : Option PyVal × Option PyVal :=
  match s with
  | none => (none, none)
  | some str =>
    if str = "" then (none, none)
    else if pyUpperL (pyStripL str.data) = "".data ∨
            pyUpperL (pyStripL str.data) = "N/A".data ∨
            pyUpperL (pyStripL str.data) = "NA".data ∨
            pyUpperL (pyStripL str.data) = "NONE".data then (none, none)
    else
      let l := pyStripL str.data
      if l.contains '-' then
        let (a, b) := splitFirst '-' l
        match pyFloatL (pyStripL a), pyFloatL (pyStripL b) with
        | some va, some vb => (some va, some vb)
        | _, _ => (none, none)
      else
        match pyFloatL l with
        | some v => (some v, some v)
        | none => (none, none)

end UvmCurrent

/-! ### Term-from-filename parsing
(src/backend/scripts/clean_historical.py lines 63-78 and
src/backend/scripts/ingest_all_terms.py lines 50, 228-233) -/

/-- Case-insensitive literal match (the effect of `re.IGNORECASE` on a
literal pattern): consumes `pat.length` characters whose ASCII lowercase
forms equal `pat`, returning the original slice and the rest. -/
def matchCI : List Char → List Char → Option (List Char × List Char)
  | [], l => some ([], l)
  | _ :: _, [] => none
  | w :: ws, c :: cs =>
    if c.toLower = w then (matchCI ws cs).map (fun mr => (c :: mr.1, mr.2))
    else none

/-- `(fall|spring|summer|winter)` at the current position (clean_historical
alternation order). -/
def matchSemWord (l : List Char) : Option (List Char × List Char) :=
  (matchCI "fall".data l).orElse fun _ =>
  (matchCI "spring".data l).orElse fun _ =>
  (matchCI "summer".data l).orElse fun _ =>
  matchCI "winter".data l

/-- `\d{4}` at the current position: four decimal digits (a fifth digit may
follow; the regexes place no boundary after the group). -/
def take4Digits : List Char → Option (List Char × List Char)
  | a :: b :: c :: d :: rest =>
    if a.isDigit && b.isDigit && c.isDigit && d.isDigit then
      some ([a, b, c, d], rest)
    else none
  | _ => none

/-- `(fall|spring|summer|winter)[_\-]?(\d{4})` anchored at the current
position.  The optional separator is greedy: it is consumed first, and the
regex backtracks to the separator-less branch when no four digits follow. -/
def tryPat1At (l : List Char) : Option (List Char × List Char) :=
  match matchSemWord l with
  | none => none
  | some (m, r) =>
    match r with
    | c :: r2 =>
      if c = '_' || c = '-' then
        match take4Digits r2 with
        | some (y, _) => some (m, y)
        | none => (take4Digits r).map (fun yr => (m, yr.1))
      else (take4Digits r).map (fun yr => (m, yr.1))
    | [] => none

/-- `re.search` for pattern 1: leftmost position where `tryPat1At`
succeeds. -/
def searchPat1 : List Char → Option (List Char × List Char)
  | [] => none
  | c :: rest =>
    match tryPat1At (c :: rest) with
    | some x => some x
    | none => searchPat1 rest

/-- Latest semester-word match reachable from the current position through
non-digit characters only — the behavior of the greedy `[^\d]*` before the
alternation in pattern 2 (backtracking prefers the longest gap). -/
def lastSemIn : List Char → Option (List Char)
  | [] => none
  | c :: rest =>
    if c.isDigit then none
    else
      match lastSemIn rest with
      | some m => some m
      | none => (matchSemWord (c :: rest)).map (·.1)

/-- `(\d{4})[^\d]*(fall|spring|summer|winter)` anchored at the current
position. -/
def tryPat2At (l : List Char) : Option (List Char × List Char) :=
  match take4Digits l with
  | none => none
  | some (y, rest) => (lastSemIn rest).map (fun m => (y, m))

/-- `re.search` for pattern 2. -/
def searchPat2 : List Char → Option (List Char × List Char)
  | [] => none
  | c :: rest =>
    match tryPat2At (c :: rest) with
    | some x => some x
    | none => searchPat2 rest

/-- Python `str.title()` for ASCII text: the first letter of every
alphabetic run is uppercased, the rest lowercased. -/
def pyTitleGo (prevAlpha : Bool) : List Char → List Char
  | [] => []
  | c :: rest =>
    if isAsciiLetter c then
      (if prevAlpha then c.toLower else c.toUpper) :: pyTitleGo true rest
    else c :: pyTitleGo false rest

def pyTitleL (l : List Char) : List Char := pyTitleGo false l

/-- Python `str.capitalize()`: first character uppercased, rest lowercased. -/
def pyCapitalizeL : List Char → List Char
  | [] => []
  | c :: rest => c.toUpper :: pyLowerL rest

/-- `parse_term_from_filename` (src/backend/scripts/clean_historical.py
lines 63-78): search `(fall|spring|summer|winter)[_\-]?(\d{4})` first, then
`(\d{4})[^\d]*(fall|spring|summer|winter)`, both case-insensitive; the
semester is returned via `.title()`, the year via `int(...)`; `none` models
the `(pd.NA, pd.NA)` fallback. -/
def parse_term_from_filename (name : String) : Option (String × Nat) :=
  match searchPat1 name.data with
  | some (m, y) => some (⟨pyTitleL m⟩, digitsVal y)
  | none =>
    match searchPat2 name.data with
    | some (y, m) => some (⟨pyTitleL m⟩, digitsVal y)
    | none => none

/-- `(spring|summer|fall|winter)` (ingest_all_terms alternation order). -/
def matchSemWordIngest (l : List Char) : Option (List Char × List Char) :=
  (matchCI "spring".data l).orElse fun _ =>
  (matchCI "summer".data l).orElse fun _ =>
  (matchCI "fall".data l).orElse fun _ =>
  matchCI "winter".data l

/-- `term_from_filename` (src/backend/scripts/ingest_all_terms.py lines
228-233): `RE_FILENAME_TERM.match`, i.e. the case-insensitive pattern
`uvm_(spring|summer|fall|winter)_(\d{4})_cleaned\.csv` anchored at the start
of the filename; on failure `("Unknown", None)`, on success the semester is
`capitalize()`d and the year converted to an integer. -/
def term_from_filename (name : String) : String × Option Nat :=
  match (do
    let r1 ← matchCI "uvm_".data name.data
    let r2 ← matchSemWordIngest r1.2
    let r3 ← matchCI "_".data r2.2
    let r4 ← take4Digits r3.2
    let _ ← matchCI "_cleaned.csv".data r4.2
    pure (r2.1, r4.1) : Option (List Char × List Char)) with
  | some (sem, y) => (⟨pyCapitalizeL sem⟩, some (digitsVal y))
  | none => ("Unknown", none)

/-! ### Spec-side matching key (for comparison with `key_name`) -/

/-- Whitespace-separated words of a character list (empty segments
dropped). -/
def wordsOf : List Char → List (List Char)
  | [] => []
  | c :: rest =>
    if isPySpace c then wordsOf rest
    else
      ((c :: rest).takeWhile (fun x => !isPySpace x)) ::
        wordsOf (rest.dropWhile (fun x => !isPySpace x))
termination_by l => l.length
decreasing_by
  · simp
  · exact Nat.lt_succ_of_le (List.IsSuffix.length_le (List.dropWhile_suffix _))

/-- The matching key as the spec describes it, written independently of
`key_name`: lowercase the canonical form, keep only lowercase letters and
whitespace, and join the whitespace-separated words with single spaces. -/
def specMatchingKey (canonical : String) : String :=
  let l := pyLowerL canonical.data
  let l2 := l.filter (fun c => ('a' ≤ c && c ≤ 'z') || isPySpace c)
  ⟨pyJoinL [' '] (wordsOf l2)⟩

/-! ### Profile field parser (src/backend/scraper/rmp_profile_parser.py)

BeautifulSoup selector queries are embedded as fields of a `ProfileDoc`
record: each field holds the outcome that the corresponding fixed selector
of the source produces on the page (the element's text, the attribute
value, or the list of matched sub-elements), so the parsing logic applied
to those outcomes is translated verbatim. -/

/-- Substring test (Python `in` on strings). -/
def containsSubL (pat : List Char) : List Char → Bool
  | [] => listPrefix pat []
  | c :: rest => listPrefix pat (c :: rest) || containsSubL pat rest

/-- `_sel_text`: `None` when the selector missed, otherwise the stripped
text coerced to `None` when empty (`txt or None`). -/
def selText (v : Option String) : Option String :=
  v.bind fun t =>
    let s := pyStrip t
    if s = "" then none else some s

/-- First `\d+(?:\.\d+)?` token in the text (`re.search` in `_to_float`). -/
def searchNum : List Char → Option ℚ
  | [] => none
  | c :: rest =>
    match parseNumTok (c :: rest) with
    | some (q, _) => some q
    | none => searchNum rest

/-- `_to_float` (lines 37-50): try `float(x)`, else the first embedded
numeric token, else `None`. -/
def toFloatOpt (x : Option String) : Option PyVal :=
  x.bind fun t =>
    match pyFloatL t.data with
    | some v => some v
    | none => (searchNum t.data).map .num

/-- First `\d+` run in the text. -/
def searchInt : List Char → Option Nat
  | [] => none
  | c :: rest =>
    if c.isDigit then some (digitsVal (takeDigits (c :: rest)).1)
    else searchInt rest

/-- `_to_int` (lines 52-57): drop commas, take the first integer run. -/
def toIntOpt (x : Option String) : Option Nat :=
  x.bind fun t => searchInt (pyReplaceL ",".data [] t.data)

/-- Python `a or b` on optional non-negative integers (`0` is falsy). -/
def pyOrNat (a b : Option Nat) : Option Nat :=
  match a with
  | some n => if n = 0 then b else some n
  | none => b

/-- Python `a or b` on optional strings (`""` is falsy); both arguments
here are `_sel_text` results, which are never `some ""`. -/
def pyOrStr (a b : Option String) : Option String :=
  match a with
  | some s => if s = "" then b else some s
  | none => b

/-- Abstract JSON value (stands in for the objects `json.loads` returns). -/
inductive PyJson where
  | mk (tag : Nat)
deriving DecidableEq, Repr

structure DistEntry where
  labelText : Option String
  bText : Option String
  labelValueText : Option String
deriving DecidableEq, Repr

structure SimilarEntryDoc where
  href : Option String
  nameSpanText : Option String
  listItemText : Option String
  scoreSpanText : Option String
deriving DecidableEq, Repr

structure RatingItemDoc where
  classText : Option String
  timeStampText : Option String
  numHeaders : List String
  numValues : List String
  commentText : Option String
  tagTexts : List String
  metaTexts : List String
  thumbsUpText : Option String
  thumbsUpText2 : Option String
  thumbsDownText : Option String
  thumbsDownText2 : Option String
deriving DecidableEq, Repr

structure ProfileDoc where
  canonicalHref : Option String
  professorLinkId : Option Nat
  compareLinkId : Option Nat
  addRatingLinkId : Option Nat
  schoolLinkId : Option Nat
  searchLinkId : Option Nat
  nameWrapperText : Option String
  headerDescNameText : Option String
  miniStickyNameText : Option String
  departmentLinkText : Option String
  departmentNameText : Option String
  schoolText : Option String
  ratingNumeratorText : Option String
  numRatingsText : Option String
  feedbackNumbers : List String
  feedbackLabels : List String
  tagContainerTexts : List String
  allTagTexts : List String
  meterList : Option (List DistEntry)
  similarEntries : List SimilarEntryDoc
  ratingsUl : Bool
  ratingStyledItems : List RatingItemDoc
  ratingLiItems : List RatingItemDoc
  rateHref : Option String
  compareHref : Option String
  nextData : Option PyJson
  relayStore : Option PyJson
deriving DecidableEq, Repr

/-- The five-bucket rating distribution (`parse_rating_distribution`
result). -/
structure RatingDist where
  awesome : Option Nat
  great : Option Nat
  good : Option Nat
  ok : Option Nat
  awful : Option Nat
deriving DecidableEq, Repr

def RatingDist.allAbsent : RatingDist := ⟨none, none, none, none, none⟩

structure SimilarProf where
  name : String
  legacy_id : Option Nat
  score : Option PyVal
  url : Option String
deriving DecidableEq, Repr

structure RatingEntry where
  course : Option String
  date : Option String
  quality : Option PyVal
  difficulty : Option PyVal
  comment : Option String
  tags : List String
  meta : List (String × Option String)
  thumbs_up : Option Nat
  thumbs_down : Option Nat
deriving DecidableEq, Repr

structure ProfileLinks where
  profile_url : Option String
  rate_url : Option String
  compare_url : Option String
deriving DecidableEq, Repr

structure RelayBits where
  nextData : Option PyJson
  relayStore : Option PyJson
deriving DecidableEq, Repr

structure ProfileData where
  professor_legacy_id : Option Nat
  school_legacy_id : Option Nat
  name : Option String
  department : Option String
  school : Option String
  avg_rating : Option PyVal
  num_ratings : Option Nat
  would_take_again_percent : Option PyVal
  difficulty : Option PyVal
  top_tags : List String
  rating_distribution : RatingDist
  similar_professors : List SimilarProf
  ratings : List RatingEntry
  links : ProfileLinks
  raw : RelayBits
deriving DecidableEq, Repr

/-- `parse_prof_ids` (lines 70-95): first of the three professor-id regex
searches, and first of the two school-id searches. -/
def parse_prof_ids (d : ProfileDoc) : Option Nat × Option Nat :=
  ((d.professorLinkId.orElse fun _ => d.compareLinkId.orElse fun _ => d.addRatingLinkId),
   (d.schoolLinkId.orElse fun _ => d.searchLinkId))

/-- One pass of the feedback-row loop of `parse_header_block`
(lines 127-134). -/
def feedbackStep (acc : Option PyVal × Option PyVal) (p : String × String) :
    Option PyVal × Option PyVal :=
  let nTxt := pyStrip p.1
  let lTxt := pyLowerL (pyStrip p.2).data
  if containsSubL "would take again".data lTxt then
    (toFloatOpt (some nTxt), acc.2)
  else if containsSubL "difficulty".data lTxt then
    (acc.1, toFloatOpt (some nTxt))
  else acc

structure HeaderBlock where
  name : Option String
  department : Option String
  school : Option String
  avg_rating : Option PyVal
  num_ratings : Option Nat
  would_take_again_percent : Option PyVal
  difficulty : Option PyVal
deriving DecidableEq, Repr

/-- `parse_header_block` (lines 97-144). -/
def parse_header_block (d : ProfileDoc) : HeaderBlock :=
  let name := pyOrStr (selText d.nameWrapperText)
    (pyOrStr (selText d.headerDescNameText) (selText d.miniStickyNameText))
  let department := pyOrStr (selText d.departmentLinkText) (selText d.departmentNameText)
  let school := selText d.schoolText
  let avg := toFloatOpt (selText d.ratingNumeratorText)
  let num := toIntOpt (selText d.numRatingsText)
  let fb :=
    if !d.feedbackNumbers.isEmpty && !d.feedbackLabels.isEmpty &&
        d.feedbackNumbers.length = d.feedbackLabels.length then
      (d.feedbackNumbers.zip d.feedbackLabels).foldl feedbackStep (none, none)
    else (none, none)
  ⟨name, department, school, avg, num, fb.1, fb.2⟩

/-- `parse_top_tags` (lines 146-158). -/
def parse_top_tags (d : ProfileDoc) : List String :=
  let tags := (d.tagContainerTexts.map pyStrip).filter (fun t => t ≠ "")
  if tags.isEmpty then (d.allTagTexts.map pyStrip).filter (fun t => t ≠ "")
  else tags

/-- One `li` of the distribution list (`parse_rating_distribution` loop,
lines 171-185). -/
def distStep (dist : RatingDist) (e : DistEntry) : RatingDist :=
  let label := (selText e.labelText).getD ""
  let countTxt := (selText e.bText).orElse fun _ => selText e.labelValueText
  let count := toIntOpt countTxt
  let key := pyStripL (pyLowerL label.data)
  if containsSubL "awesome".data key then { dist with awesome := count }
  else if containsSubL "great".data key then { dist with great := count }
  else if containsSubL "good".data key then { dist with good := count }
  else if key = "ok".data ∨ key = "okay".data then { dist with ok := count }
  else if containsSubL "awful".data key then { dist with awful := count }
  else dist

/-- `parse_rating_distribution` (lines 160-186): all five buckets are
`None` when the wrapper is missing; otherwise each list entry may fill one
bucket. -/
def parse_rating_distribution (d : ProfileDoc) : RatingDist :=
  match d.meterList with
  | none => RatingDist.allAbsent
  | some entries => entries.foldl distStep RatingDist.allAbsent

/-- First `/professor/(\d+)` occurrence inside a URL string. -/
def searchProfNum : List Char → Option Nat
  | [] => none
  | c :: rest =>
    if listPrefix "/professor/".data (c :: rest) then
      let after := (c :: rest).drop "/professor/".data.length
      match after with
      | d :: _ =>
        if d.isDigit then some (digitsVal (takeDigits after).1)
        else searchProfNum rest
      | [] => searchProfNum rest
    else searchProfNum rest

/-- `parse_similar_professors` (lines 188-203). -/
def parse_similar_professors (d : ProfileDoc) : List SimilarProf :=
  d.similarEntries.foldr
    (fun a out =>
      let url := a.href.getD ""
      let name := pyOrStr (selText a.nameSpanText) (selText a.listItemText)
      let score := toFloatOpt (selText a.scoreSpanText)
      let legacy := searchProfNum url.data
      match name with
      | some nm =>
        ⟨nm, legacy, score,
          if url.startsWith "/" then some ("https://www.ratemyprofessors.com" ++ url)
          else if url = "" then none else some url⟩ :: out
      | none => out)
    []

/-- `_parse_rating_meta` (lines 205-215): `"k: v"` texts accumulated into a
dict (later keys overwrite). -/
def metaUpsert (k : String) (v : Option String) :
    List (String × Option String) → List (String × Option String)
  | [] => [(k, v)]
  | (k0, v0) :: rest =>
    if k0 = k then (k0, v) :: rest else (k0, v0) :: metaUpsert k v rest

def parseRatingMeta (texts : List String) : List (String × Option String) :=
  texts.foldl
    (fun meta txt =>
      if txt.data.contains ':' then
        let kv := splitFirst ':' txt.data
        let k := pyStripL kv.1
        let v := pyStripL kv.2
        metaUpsert ⟨k⟩ (if v.isEmpty then none else some ⟨v⟩) meta
      else meta)
    []

/-- The quality/difficulty loop of `parse_student_ratings`
(lines 236-247). -/
def qualityStep (acc : Option PyVal × Option PyVal) (p : String × String) :
    Option PyVal × Option PyVal :=
  let hTxt := pyLowerL (pyStrip p.1).data
  let val := toFloatOpt (some (pyStrip p.2))
  if containsSubL "quality".data hTxt then (val, acc.2)
  else if containsSubL "difficulty".data hTxt then (acc.1, val)
  else acc

/-- One rating `li` (lines 231-277). -/
def parseRatingItem (li : RatingItemDoc) : RatingEntry :=
  let course := selText li.classText
  let date := selText li.timeStampText
  let qd :=
    if !li.numHeaders.isEmpty && !li.numValues.isEmpty &&
        li.numHeaders.length = li.numValues.length then
      (li.numHeaders.zip li.numValues).foldl qualityStep (none, none)
    else (none, none)
  let comment := selText li.commentText
  let rtags := (li.tagTexts.map pyStrip).filter (fun t => t ≠ "")
  let meta := parseRatingMeta li.metaTexts
  let up := pyOrNat (toIntOpt (selText li.thumbsUpText)) (toIntOpt (selText li.thumbsUpText2))
  let down := pyOrNat (toIntOpt (selText li.thumbsDownText)) (toIntOpt (selText li.thumbsDownText2))
  ⟨course, date, qd.1, qd.2, comment, rtags, meta, up, down⟩

/-- The ratings loop with the `limit`-and-break of lines 279-280 (a `limit`
of `None` or `0` is falsy and never breaks; the breaking item is still
appended first). -/
def ratingsGo (limit : Option Nat) : List RatingItemDoc → Nat → List RatingEntry
  | [], _ => []
  | li :: rest, cnt =>
    let e := parseRatingItem li
    let cnt2 := cnt + 1
    if (match limit with
        | some n => decide (n ≠ 0 ∧ n ≤ cnt2)
        | none => false) then [e]
    else e :: ratingsGo limit rest cnt2

/-- `parse_student_ratings` (lines 217-282). -/
def parse_student_ratings (d : ProfileDoc) (limit : Option Nat) : List RatingEntry :=
  if !d.ratingsUl then []
  else
    let items := if !d.ratingStyledItems.isEmpty then d.ratingStyledItems else d.ratingLiItems
    ratingsGo limit items 0

/-- `parse_canonical_url` (lines 66-68). -/
def parse_canonical_url (d : ProfileDoc) : Option String :=
  d.canonicalHref.bind fun h => if h = "" then none else some h

/-- `parse_links` (lines 284-299). -/
def parse_links (d : ProfileDoc) : ProfileLinks :=
  let abs := fun (h : Option String) =>
    h.bind fun s =>
      if s = "" then none
      else if s.startsWith "/" then some ("https://www.ratemyprofessors.com" ++ s)
      else some s
  ⟨parse_canonical_url d, abs d.rateHref, abs d.compareHref⟩

/-- `parse_relay_json` (lines 301-329), with the two script-tag JSON
extractions abstracted as document fields holding the decoded value when
extraction and `json.loads` succeed. -/
def parse_relay_json (d : ProfileDoc) : RelayBits :=
  ⟨d.nextData, d.relayStore⟩

/-- `parse_professor_page` (lines 334-363). -/
def parse_professor_page (d : ProfileDoc) (ratingsLimit : Option Nat) : ProfileData :=
  let ids := parse_prof_ids d
  let header := parse_header_block d
  ⟨ids.1, ids.2, header.name, header.department, header.school, header.avg_rating,
    header.num_ratings, header.would_take_again_percent, header.difficulty,
    parse_top_tags d, parse_rating_distribution d, parse_similar_professors d,
    parse_student_ratings d ratingsLimit, parse_links d, parse_relay_json d⟩

/-! ### Relational store and ingestion
(src/backend/scripts/ingest_all_terms.py lines 86-331)

SQLite tables are embedded as lists of row records; `INTEGER PRIMARY KEY`
id assignment is modeled by a monotone per-table counter.  Row order
inside a table only matters through `SELECT ... fetchone()`, which the
embedding renders as `List.find?`; with the schema's UNIQUE constraints
the matched row is unique in every reachable state, so first-match
semantics coincide with SQLite's. -/

structure TermRow where
  tid : Nat
  semester : String
  year : Int
deriving DecidableEq, Repr

structure SubjectRow where
  sid : Nat
  code : String
deriving DecidableEq, Repr

structure CourseRow where
  cid : Nat
  subjectId : Nat
  number : String
  title : String
deriving DecidableEq, Repr

structure InstructorRow where
  iid : Nat
  name : String
  netid : Option String
  email : Option String
deriving DecidableEq, Repr

structure SectionRow where
  secId : Nat
  courseId : Nat
  termId : Nat
  crn : String
  lecLab : Option String
  creditsMin : Option PyVal
  creditsMax : Option PyVal
  maxEnr : Option Int
  curEnr : Option Int
deriving DecidableEq, Repr

structure MeetingRow where
  mid : Nat
  sectionId : Nat
  startTime : Option String
  endTime : Option String
  days : Option String
  bldg : Option String
  room : Option String
  location : Option String
deriving DecidableEq, Repr

structure LinkRow where
  sectionId : Nat
  instructorId : Nat
  role : Option String
deriving DecidableEq, Repr

structure Db where
  terms : List TermRow
  subjects : List SubjectRow
  courses : List CourseRow
  instructors : List InstructorRow
  sections : List SectionRow
  meetings : List MeetingRow
  links : List LinkRow
  nextTerm : Nat
  nextSubject : Nat
  nextCourse : Nat
  nextInstructor : Nat
  nextSection : Nat
  nextMeeting : Nat
deriving DecidableEq, Repr

def emptyDb : Db := ⟨[], [], [], [], [], [], [], 1, 1, 1, 1, 1, 1⟩

/-- `norm` (ingest_all_terms.py line 52). -/
def norm (v : Option String) : String := pyStrip (v.getD "")

/-- `is_missing` (lines 54-56). -/
def is_missing (v : Option String) : Bool :=
  let s := pyStrip (v.getD "")
  s = "" || pyLowerL s.data = "nan".data

/-- Truncation toward zero, the effect of Python `int(...)` on a float. -/
def ratTrunc (q : ℚ) : Int := q.num.tdiv q.den

/-- `to_int` (lines 58-65): `int(float(s))`, `None` on any failure
(including the `int(nan)`/`int(inf)` exceptions). -/
def to_int (v : Option String) : Option Int :=
  let s := norm v
  if s = "" || pyLowerL s.data = "nan".data then none
  else
    match pyFloatL s.data with
    | some (.num q) => some (ratTrunc q)
    | _ => none

/-- `"" → None` coercion (`getv(...) or None`). -/
def denull (v : Option String) : Option String :=
  v.bind fun s => if s = "" then none else some s

/-- Replace the first element satisfying `p` (the row hit by
`ON CONFLICT ... DO UPDATE`). -/
def updateFirst (p : α → Bool) (f : α → α) : List α → List α
  | [] => []
  | x :: xs => if p x then f x :: xs else x :: updateFirst p f xs

def findTerm (db : Db) (sem : String) (yr : Int) : Option Nat :=
  (db.terms.find? (fun t => t.semester == sem && t.year == yr)).map (·.tid)

def findSubject (db : Db) (code : String) : Option Nat :=
  (db.subjects.find? (fun s => s.code == code)).map (·.sid)

def findCourse (db : Db) (sid : Nat) (number title : String) : Option Nat :=
  (db.courses.find? (fun c => c.subjectId == sid && c.number == number && c.title == title)).map (·.cid)

def findInstructor (db : Db) (name : String) (netid email : Option String) : Option Nat :=
  (db.instructors.find? (fun i =>
    i.name == name && i.netid.getD "" == netid.getD "" && i.email.getD "" == email.getD "")).map (·.iid)

def findSec (db : Db) (tid : Nat) (crn : String) : Option Nat :=
  (db.sections.find? (fun s => s.termId == tid && s.crn == crn)).map (·.secId)

/-- `get_term_id` (lines 149-153): lookup, insert on miss, return the id. -/
def get_term_id (db : Db) (sem : String) (yr : Int) : Nat × Db :=
  match findTerm db sem yr with
  | some t => (t, db)
  | none =>
    (db.nextTerm,
      { db with terms := db.terms ++ [⟨db.nextTerm, sem, yr⟩], nextTerm := db.nextTerm + 1 })

/-- `get_subject_id` (lines 155-159). -/
def get_subject_id (db : Db) (v : Option String) : Option Nat × Db :=
  let code := norm v
  if code = "" then (none, db)
  else
    match findSubject db code with
    | some s => (some s, db)
    | none =>
      (some db.nextSubject,
        { db with subjects := db.subjects ++ [⟨db.nextSubject, code⟩],
                  nextSubject := db.nextSubject + 1 })

/-- `get_course_id` (lines 161-170). -/
def get_course_id (db : Db) (sid : Nat) (number title : Option String) : Nat × Db :=
  let n := norm number
  let t := norm title
  match findCourse db sid n t with
  | some c => (c, db)
  | none =>
    (db.nextCourse,
      { db with courses := db.courses ++ [⟨db.nextCourse, sid, n, t⟩],
                nextCourse := db.nextCourse + 1 })

/-- `get_instructor_id` (lines 172-185); empty `netid`/`email` become
`NULL` and are compared through `COALESCE(·,'')`. -/
def get_instructor_id (db : Db) (name netid email : Option String) : Option Nat × Db :=
  let nm := norm name
  let nid := denull (some (norm netid))
  let em := denull (some (norm email))
  if nm = "" then (none, db)
  else
    match findInstructor db nm nid em with
    | some i => (some i, db)
    | none =>
      (some db.nextInstructor,
        { db with instructors := db.instructors ++ [⟨db.nextInstructor, nm, nid, em⟩],
                  nextInstructor := db.nextInstructor + 1 })

/-- `upsert_section_and_get_id` (lines 187-203): insert by `(term, crn)`;
on conflict overwrite course linkage, lec/lab, credit range and both
enrollment counts; then select the `section_id` for `(term, crn)`.  The
same `INSERT ... ON CONFLICT(term_id, crn) DO UPDATE` statement is
`upsert_section` in src/backend/scripts/ingest_uvm_current.py lines
151-163. -/
def upsert_section_and_get_id (db : Db) (cid tid : Nat) (crn : String)
    (lec : Option String) (cmin cmax : Option PyVal) (maxE curE : Option Int) : Nat × Db :=
  let key := fun (s : SectionRow) => s.termId == tid && s.crn == crn
  let overwrite := fun (s : SectionRow) =>
    { s with courseId := cid, lecLab := lec, creditsMin := cmin,
             creditsMax := cmax, maxEnr := maxE, curEnr := curE }
  match db.sections.find? key with
  | some s0 =>
    (s0.secId, { db with sections := updateFirst key overwrite db.sections })
  | none =>
    let row : SectionRow := ⟨db.nextSection, cid, tid, crn, lec, cmin, cmax, maxE, curE⟩
    (db.nextSection,
      { db with sections := db.sections ++ [row], nextSection := db.nextSection + 1 })

/-- One canonical-field row, as produced by `getv` over the per-file
keymap: `none` when the canonical field has no column in this file,
otherwise the `norm`ed cell text. -/
structure Row where
  subj : Option String
  number : Option String
  title : Option String
  crn : Option String
  lecLab : Option String
  credits : Option String
  startTime : Option String
  endTime : Option String
  days : Option String
  bldg : Option String
  room : Option String
  location : Option String
  instructor : Option String
  netid : Option String
  email : Option String
  maxEnr : Option String
  curEnr : Option String
  semester : Option String
  year : Option String
deriving DecidableEq, Repr

/-- The required-field check of ingest_csv line 271. -/
def validRow (r : Row) : Bool :=
  !(is_missing r.subj || is_missing r.number || is_missing r.title || is_missing r.crn)

def meetCount (db : Db) (sid : Nat) : Nat :=
  (db.meetings.filter (fun m => m.sectionId == sid)).length

/-- The meeting row inserted for a section (ingest_csv lines 290-300). -/
def meetingFor (db : Db) (sid : Nat) (r : Row) : MeetingRow :=
  ⟨db.nextMeeting, sid, denull r.startTime, denull r.endTime, denull r.days,
    denull r.bldg, denull r.room, denull r.location⟩

/-- `DELETE FROM meetings WHERE section_id=?` followed by the single
`INSERT` (ingest_csv lines 288-300). -/
def meetReplace (db : Db) (sid : Nat) (r : Row) : Db :=
  let pruned := db.meetings.filter (fun m => !(m.sectionId == sid))
  { db with meetings := pruned ++ [meetingFor db sid r], nextMeeting := db.nextMeeting + 1 }

/-- `INSERT OR IGNORE INTO section_instructors` (ingest_csv lines 306-310);
the table's primary key is `(section_id, instructor_id)`. -/
def linkIns (db : Db) (sid iid : Nat) : Db :=
  if db.links.any (fun l => l.sectionId == sid && l.instructorId == iid) then db
  else { db with links := db.links ++ [⟨sid, iid, none⟩] }

/-- The instructor half of the row loop (ingest_csv lines 302-310):
`inst_name = getv(...) or None`; when present, resolve the instructor and
link it to the section unless `inst_id` is falsy. -/
def instrPhase (db : Db) (sid : Nat) (r : Row) : Db :=
  match denull r.instructor with
  | none => db
  | some nm =>
    match get_instructor_id db (some nm) r.netid r.email with
    | (none, db1) => db1
    | (some iid, db1) => if iid = 0 then db1 else linkIns db1 sid iid

/-- The body of the per-row loop of `ingest_csv` (lines 264-311): validate,
resolve dimensions, upsert the section, rebuild its meetings, link the
instructor. -/
def processRow (db : Db) (tid : Nat) (r : Row) : Db :=
  if !validRow r then db
  else
    match get_subject_id db r.subj with
    | (none, db1) => db1
    | (some sid, db1) =>
      let cd := get_course_id db1 sid r.number r.title
      let credits := AllTerms.parse_credits r.credits
      let su := upsert_section_and_get_id cd.2 cd.1 tid (r.crn.getD "")
        r.lecLab credits.1 credits.2 (to_int r.maxEnr) (to_int r.curEnr)
      instrPhase (meetReplace su.2 su.1 r) su.1 r

structure CsvFile where
  name : String
  rows : List Row
deriving DecidableEq, Repr

/-- Term derivation of `ingest_csv` (lines 249-258), a pure function of the
filename and the first row: use the Semester/Year columns when both are
present; fall back to the filename pattern when they are missing or when
`int(float(year))` raises. -/
def derivTerm (name : String) (r0 : Row) : String × Option Int :=
  if is_missing r0.semester || is_missing r0.year then
    let p := term_from_filename name
    (p.1, p.2.map Int.ofNat)
  else
    match pyFloatL (norm r0.year).data with
    | some (.num q) => (r0.semester.getD "", some (ratTrunc q))
    | _ => (r0.semester.getD "", (term_from_filename name).2.map Int.ofNat)

/-- `ingest_csv` (lines 237-315).  A `none` result models the uncaught
`TypeError` raised in `get_term_id` when the term year cannot be resolved
(the final `fetchone()[0]` on an empty result), which aborts the whole
batch run. -/
def ingest_csv (db : Db) (f : CsvFile) : Option Db :=
  match f.rows with
  | [] => some db
  | r0 :: _ =>
    match derivTerm f.name r0 with
    | (sem, some yr) =>
      let td := get_term_id db sem yr
      some (f.rows.foldl (fun d r => processRow d td.1 r) td.2)
    | (_, none) => none

/-- `main` (lines 319-332): ingest each file in order; an unhandled
exception stops the run. -/
def ingestAll (db : Db) : List CsvFile → Option Db
  | [] => some db
  | f :: fs =>
    match ingest_csv db f with
    | none => none
    | some db1 => ingestAll db1 fs

structure Counts where
  terms : Nat
  subjects : Nat
  courses : Nat
  instructors : Nat
  sections : Nat
  meetings : Nat
  links : Nat
deriving DecidableEq, Repr

def counts (db : Db) : Counts :=
  ⟨db.terms.length, db.subjects.length, db.courses.length, db.instructors.length,
    db.sections.length, db.meetings.length, db.links.length⟩

/-! ### Invariants used to reason about re-ingestion -/

/-- The section-identity projection: `(term_id, crn, section_id)`.  The
snapshot overwrite never touches these three fields, so along any ingest
the projected list only ever grows at the end. -/
def secProj (l : List SectionRow) : List (Nat × String × Nat) :=
  l.map (fun s => (s.termId, s.crn, s.secId))

/-- `db'` extends `db`: every dimension table grew only by appended rows,
links grew only by appended rows, and the section table grew only by
appended rows up to overwrites of non-identity fields. -/
structure DbExt (db db' : Db) : Prop where
  terms : ∃ t, db'.terms = db.terms ++ t
  subjects : ∃ t, db'.subjects = db.subjects ++ t
  courses : ∃ t, db'.courses = db.courses ++ t
  instructors : ∃ t, db'.instructors = db.instructors ++ t
  links : ∃ t, db'.links = db.links ++ t
  sections : ∃ t, secProj db'.sections = secProj db.sections ++ t

/-- A pipeline step: the store extends, and any section owning exactly one
meeting still owns exactly one meeting afterwards. -/
def StepR (db db' : Db) : Prop :=
  DbExt db db' ∧ ∀ x, meetCount db x = 1 → meetCount db' x = 1

/-- The `get_subject_id` lookup half (id of the first subject row matching
the normalized code, `none` for an empty code). -/
def findSubjW (db : Db) (v : Option String) : Option Nat :=
  if norm v = "" then none else findSubject db (norm v)

/-- The `get_instructor_id` lookup half. -/
def findInstr (db : Db) (name netid email : Option String) : Option Nat :=
  if norm name = "" then none
  else findInstructor db (norm name) (denull (some (norm netid))) (denull (some (norm email)))

/-- The instructor part of row readiness: no instructor named, an
instructor whose name normalizes to empty, or a resolvable instructor whose
link to the section is already recorded (a falsy id skips linking). -/
def InstrClause (db : Db) (secid : Nat) (r : Row) : Prop :=
  match denull r.instructor with
  | none => True
  | some nm =>
    norm (some nm) = "" ∨
    ∃ iid, findInstr db (some nm) r.netid r.email = some iid ∧
      (iid = 0 ∨ db.links.any (fun l => l.sectionId == secid && l.instructorId == iid) = true)

/-- All facts about a processed row that make its re-processing a no-op on
row counts: every dimension lookup hits, the section row for `(term, crn)`
exists, it owns exactly one meeting, and the instructor link (when an
instructor is named) is already recorded. -/
def RowReady (db : Db) (tid : Nat) (r : Row) : Prop :=
  ∃ sid cid secid,
    findSubjW db r.subj = some sid ∧
    findCourse db sid (norm r.number) (norm r.title) = some cid ∧
    findSec db tid (r.crn.getD "") = some secid ∧
    meetCount db secid = 1 ∧
    InstrClause db secid r

/-- File-level readiness: the term row exists and every valid row of the
file is ready against it. -/
def FileReady (db : Db) (f : CsvFile) : Prop :=
  ∀ r0 rest sem yr, f.rows = r0 :: rest → derivTerm f.name r0 = (sem, some yr) →
    ∃ t, findTerm db sem yr = some t ∧ ∀ r ∈ f.rows, validRow r = true → RowReady db t r

/-! ### Insertion shapes used by the get-or-create operations -/

def termIns (db : Db) (s : String) (y : Int) : Db :=
  let row : TermRow := ⟨db.nextTerm, s, y⟩
  { db with terms := db.terms ++ [row], nextTerm := db.nextTerm + 1 }

def subjIns (db : Db) (v : Option String) : Db :=
  let row : SubjectRow := ⟨db.nextSubject, norm v⟩
  { db with subjects := db.subjects ++ [row], nextSubject := db.nextSubject + 1 }

def courseIns (db : Db) (sid : Nat) (n t : Option String) : Db :=
  let row : CourseRow := ⟨db.nextCourse, sid, norm n, norm t⟩
  { db with courses := db.courses ++ [row], nextCourse := db.nextCourse + 1 }

def instrIns (db : Db) (n nid em : Option String) : Db :=
  let row : InstructorRow :=
    ⟨db.nextInstructor, norm n, denull (some (norm nid)), denull (some (norm em))⟩
  { db with instructors := db.instructors ++ [row], nextInstructor := db.nextInstructor + 1 }

/-- The overwrite function of the section upsert. -/
def secOverwrite (cid : Nat) (lec : Option String) (cmin cmax : Option PyVal)
    (maxE curE : Option Int) : SectionRow → SectionRow :=
  fun s => { s with courseId := cid, lecLab := lec, creditsMin := cmin,
                    creditsMax := cmax, maxEnr := maxE, curEnr := curE }

/-- State after the conflict branch of the section upsert. -/
def secUpd (db : Db) (cid tid : Nat) (crn : String) (lec : Option String)
    (cmin cmax : Option PyVal) (maxE curE : Option Int) : Db :=
  let upd := updateFirst (fun s => s.termId == tid && s.crn == crn)
    (secOverwrite cid lec cmin cmax maxE curE) db.sections
  { db with sections := upd }

def secIns (db : Db) (cid tid : Nat) (crn : String) (lec : Option String)
    (cmin cmax : Option PyVal) (maxE curE : Option Int) : Db :=
  let row : SectionRow := ⟨db.nextSection, cid, tid, crn, lec, cmin, cmax, maxE, curE⟩
  { db with sections := db.sections ++ [row], nextSection := db.nextSection + 1 }

/-! ### Concrete scenario data for the testable properties -/

def sampleRow1 : Row :=
  { subj := some "CS", number := some "101", title := some "Intro", crn := some "10001",
    lecLab := some "LEC", credits := some "3", startTime := some "09:00",
    endTime := some "09:50", days := some "MWF", bldg := some "VOTEY", room := some "105",
    location := some "VOTEY 105", instructor := some "Smith, John", netid := some "jsmith",
    email := some "js@uvm.edu", maxEnr := some "30", curEnr := some "20",
    semester := some "Fall", year := some "2025" }

def sampleRow2 : Row := { sampleRow1 with curEnr := some "25", days := some "TR" }

def sampleFile1 : CsvFile := ⟨"uvm_fall_2025_cleaned.csv", [sampleRow1]⟩

def sampleFile2 : CsvFile := ⟨"uvm_fall_2025_cleaned.csv", [sampleRow2]⟩

/-- The store after ingesting the first sample file into an empty store. -/
def sampleDb1 : Db := (ingestAll emptyDb [sampleFile1]).getD emptyDb

/-- A profile document whose rating-distribution block is missing but whose
other components are present. -/
def sampleDoc : ProfileDoc :=
  { canonicalHref := some "https://www.ratemyprofessors.com/professor/12345",
    professorLinkId := some 12345, compareLinkId := none, addRatingLinkId := none,
    schoolLinkId := some 1320, searchLinkId := none,
    nameWrapperText := some "John Smith", headerDescNameText := none,
    miniStickyNameText := none, departmentLinkText := some "Computer Science",
    departmentNameText := none, schoolText := some "University of Vermont",
    ratingNumeratorText := some "4.9", numRatingsText := some "Based on 53 ratings",
    feedbackNumbers := ["99%", "3.1"],
    feedbackLabels := ["Would take again", "Level of Difficulty"],
    tagContainerTexts := ["Caring", "Respected"], allTagTexts := [],
    meterList := none, similarEntries := [], ratingsUl := false,
    ratingStyledItems := [], ratingLiItems := [], rateHref := none, compareHref := none,
    nextData := none, relayStore := none }

/-! ## Lemmas -/

theorem updateFirst_length (p : α → Bool) (f : α → α) (l : List α) :
    (updateFirst p f l).length = l.length := by
  induction l with
  | nil => rfl
  | cons x xs ih =>
    simp only [updateFirst]
    split <;> simp [ih]

theorem updateFirst_map (p : α → Bool) (f : α → α) (g : α → β)
    (h : ∀ x, g (f x) = g x) (l : List α) :
    (updateFirst p f l).map g = l.map g := by
  induction l with
  | nil => rfl
  | cons x xs ih =>
    simp only [updateFirst]
    split <;> simp [ih, h]

theorem updateFirst_find? (p : α → Bool) (f : α → α) (hp : ∀ x, p (f x) = p x)
    {l : List α} {x : α} (h : l.find? p = some x) :
    (updateFirst p f l).find? p = some (f x) := by
  induction l with
  | nil => simp at h
  | cons a l ih =>
    by_cases ha : p a = true
    · rw [List.find?_cons_of_pos _ ha] at h
      cases h
      simp only [updateFirst, ha, if_true]
      exact List.find?_cons_of_pos _ (by rw [hp]; exact ha)
    · have ha' : p a = false := by simpa using ha
      rw [List.find?_cons_of_neg _ (by simp [ha'])] at h
      simp only [updateFirst, ha', if_false, Bool.false_eq_true]
      rw [List.find?_cons_of_neg _ (by simp [ha'])]
      exact ih h

theorem find?_append_some {p : α → Bool} {l : List α} {x : α}
    (h : l.find? p = some x) (t : List α) : (l ++ t).find? p = some x := by
  rw [List.find?_append, h]
  rfl

theorem find_map_stable {l l' : List α} {p : α → Bool} {g : α → β} {v : β}
    (ext : ∃ t, l' = l ++ t) (h : (l.find? p).map g = some v) :
    (l'.find? p).map g = some v := by
  obtain ⟨t, rfl⟩ := ext
  cases hx : l.find? p with
  | none => rw [hx] at h; simp at h
  | some x =>
    rw [hx] at h
    rw [find?_append_some hx]
    exact h

/-! ### Stability of lookups along `DbExt` -/

theorem findTerm_stable {db db' : Db} (h : DbExt db db') {s : String} {y : Int} {v : Nat}
    (hf : findTerm db s y = some v) : findTerm db' s y = some v := by
  obtain ⟨t, ht⟩ := h.terms
  unfold findTerm at hf ⊢
  rw [ht]
  exact find_map_stable ⟨t, rfl⟩ hf

theorem findSubject_stable {db db' : Db} (h : DbExt db db') {c : String} {v : Nat}
    (hf : findSubject db c = some v) : findSubject db' c = some v := by
  obtain ⟨t, ht⟩ := h.subjects
  unfold findSubject at hf ⊢
  rw [ht]
  exact find_map_stable ⟨t, rfl⟩ hf

theorem findSubjW_stable {db db' : Db} (h : DbExt db db') {w : Option String} {v : Nat}
    (hf : findSubjW db w = some v) : findSubjW db' w = some v := by
  unfold findSubjW at hf ⊢
  by_cases he : norm w = ""
  · simp [he] at hf
  · simp only [he, if_false] at hf ⊢
    exact findSubject_stable h hf

theorem findCourse_stable {db db' : Db} (h : DbExt db db') {sid : Nat} {n t : String} {v : Nat}
    (hf : findCourse db sid n t = some v) : findCourse db' sid n t = some v := by
  obtain ⟨u, hu⟩ := h.courses
  unfold findCourse at hf ⊢
  rw [hu]
  exact find_map_stable ⟨u, rfl⟩ hf

theorem findInstructor_stable {db db' : Db} (h : DbExt db db') {n : String}
    {nid em : Option String} {v : Nat}
    (hf : findInstructor db n nid em = some v) : findInstructor db' n nid em = some v := by
  obtain ⟨u, hu⟩ := h.instructors
  unfold findInstructor at hf ⊢
  rw [hu]
  exact find_map_stable ⟨u, rfl⟩ hf

theorem findInstr_stable {db db' : Db} (h : DbExt db db') {n nid em : Option String} {v : Nat}
    (hf : findInstr db n nid em = some v) : findInstr db' n nid em = some v := by
  unfold findInstr at hf ⊢
  by_cases he : norm n = ""
  · simp [he] at hf
  · simp only [he, if_false] at hf ⊢
    exact findInstructor_stable h hf

theorem secProj_find? (tid : Nat) (crn : String) (l : List SectionRow) :
    ((secProj l).find? (fun x => x.1 == tid && x.2.1 == crn)).map (·.2.2) =
      (l.find? (fun s => s.termId == tid && s.crn == crn)).map (·.secId) := by
  induction l with
  | nil => rfl
  | cons a l ih =>
    simp only [secProj, List.map_cons] at ih ⊢
    cases hb : (a.termId == tid && a.crn == crn)
    · have e1 : List.find? (fun x : Nat × String × Nat => x.1 == tid && x.2.1 == crn)
          ((a.termId, a.crn, a.secId) :: List.map (fun s => (s.termId, s.crn, s.secId)) l) =
          List.find? (fun x : Nat × String × Nat => x.1 == tid && x.2.1 == crn)
            (List.map (fun s => (s.termId, s.crn, s.secId)) l) :=
        List.find?_cons_of_neg _ (by simpa using hb)
      have e2 : List.find? (fun s : SectionRow => s.termId == tid && s.crn == crn) (a :: l) =
          List.find? (fun s : SectionRow => s.termId == tid && s.crn == crn) l :=
        List.find?_cons_of_neg _ (by simpa using hb)
      rw [e1, e2]
      exact ih
    · have e1 : List.find? (fun x : Nat × String × Nat => x.1 == tid && x.2.1 == crn)
          ((a.termId, a.crn, a.secId) :: List.map (fun s => (s.termId, s.crn, s.secId)) l) =
          some (a.termId, a.crn, a.secId) :=
        List.find?_cons_of_pos _ (by simpa using hb)
      have e2 : List.find? (fun s : SectionRow => s.termId == tid && s.crn == crn) (a :: l) =
          some a :=
        List.find?_cons_of_pos _ hb
      rw [e1, e2]
      rfl

theorem findSec_eq_proj (db : Db) (tid : Nat) (crn : String) :
    findSec db tid crn =
      ((secProj db.sections).find? (fun x => x.1 == tid && x.2.1 == crn)).map (·.2.2) := by
  unfold findSec
  rw [secProj_find? tid crn db.sections]

theorem findSec_stable {db db' : Db} (h : DbExt db db') {tid : Nat} {crn : String} {v : Nat}
    (hf : findSec db tid crn = some v) : findSec db' tid crn = some v := by
  obtain ⟨t, ht⟩ := h.sections
  rw [findSec_eq_proj] at hf ⊢
  rw [ht]
  exact find_map_stable ⟨t, rfl⟩ hf

theorem linkAny_stable {db db' : Db} (h : DbExt db db') {q : LinkRow → Bool}
    (hf : db.links.any q = true) : db'.links.any q = true := by
  obtain ⟨t, ht⟩ := h.links
  rw [ht, List.any_append, hf]
  rfl

/-! ### `DbExt` and `StepR` algebra -/

theorem DbExt_refl (db : Db) : DbExt db db :=
  ⟨⟨[], by simp⟩, ⟨[], by simp⟩, ⟨[], by simp⟩, ⟨[], by simp⟩, ⟨[], by simp⟩, ⟨[], by simp⟩⟩

theorem DbExt_trans {a b c : Db} (h1 : DbExt a b) (h2 : DbExt b c) : DbExt a c := by
  refine ⟨?_, ?_, ?_, ?_, ?_, ?_⟩
  · obtain ⟨t1, e1⟩ := h1.terms; obtain ⟨t2, e2⟩ := h2.terms
    exact ⟨t1 ++ t2, by rw [e2, e1, List.append_assoc]⟩
  · obtain ⟨t1, e1⟩ := h1.subjects; obtain ⟨t2, e2⟩ := h2.subjects
    exact ⟨t1 ++ t2, by rw [e2, e1, List.append_assoc]⟩
  · obtain ⟨t1, e1⟩ := h1.courses; obtain ⟨t2, e2⟩ := h2.courses
    exact ⟨t1 ++ t2, by rw [e2, e1, List.append_assoc]⟩
  · obtain ⟨t1, e1⟩ := h1.instructors; obtain ⟨t2, e2⟩ := h2.instructors
    exact ⟨t1 ++ t2, by rw [e2, e1, List.append_assoc]⟩
  · obtain ⟨t1, e1⟩ := h1.links; obtain ⟨t2, e2⟩ := h2.links
    exact ⟨t1 ++ t2, by rw [e2, e1, List.append_assoc]⟩
  · obtain ⟨t1, e1⟩ := h1.sections; obtain ⟨t2, e2⟩ := h2.sections
    exact ⟨t1 ++ t2, by rw [e2, e1, List.append_assoc]⟩

theorem StepR_refl (db : Db) : StepR db db := ⟨DbExt_refl db, fun _ h => h⟩

theorem StepR_trans {a b c : Db} (h1 : StepR a b) (h2 : StepR b c) : StepR a c :=
  ⟨DbExt_trans h1.1 h2.1, fun x hx => h2.2 x (h1.2 x hx)⟩

theorem InstrClause_mono {db db' : Db} (h : StepR db db') {secid : Nat} {r : Row}
    (hc : InstrClause db secid r) : InstrClause db' secid r := by
  unfold InstrClause at hc ⊢
  revert hc
  cases denull r.instructor with
  | none => exact fun hc => hc
  | some nm =>
    rintro (he | ⟨iid, hi, hl⟩)
    · exact Or.inl he
    · refine Or.inr ⟨iid, findInstr_stable h.1 hi, ?_⟩
      rcases hl with h0 | hl
      · exact Or.inl h0
      · exact Or.inr (linkAny_stable h.1 hl)

theorem RowReady_mono {db db' : Db} (h : StepR db db') {tid : Nat} {r : Row}
    (hr : RowReady db tid r) : RowReady db' tid r := by
  obtain ⟨sid, cid, secid, h1, h2, h3, h4, h5⟩ := hr
  exact ⟨sid, cid, secid, findSubjW_stable h.1 h1, findCourse_stable h.1 h2,
    findSec_stable h.1 h3, h.2 _ h4, InstrClause_mono h h5⟩

/-! ### Specifications of the store operations -/

theorem StepR_of_frames {db db' : Db}
    (ht : ∃ u, db'.terms = db.terms ++ u)
    (hs : ∃ u, db'.subjects = db.subjects ++ u)
    (hc : ∃ u, db'.courses = db.courses ++ u)
    (hi : ∃ u, db'.instructors = db.instructors ++ u)
    (hl : ∃ u, db'.links = db.links ++ u)
    (hsec : ∃ u, secProj db'.sections = secProj db.sections ++ u)
    (hm : db'.meetings = db.meetings) : StepR db db' :=
  ⟨⟨ht, hs, hc, hi, hl, hsec⟩, fun x hx => by
    unfold meetCount at hx ⊢
    rw [hm]
    exact hx⟩

theorem get_term_id_hit {db : Db} {s : String} {y : Int} {t : Nat}
    (h : findTerm db s y = some t) : get_term_id db s y = (t, db) := by
  unfold get_term_id
  rw [h]

theorem get_term_id_miss {db : Db} {s : String} {y : Int}
    (h : findTerm db s y = none) : get_term_id db s y = (db.nextTerm, termIns db s y) := by
  unfold get_term_id
  rw [h]
  rfl

theorem findTerm_termIns (db : Db) (s : String) (y : Int)
    (h : findTerm db s y = none) : findTerm (termIns db s y) s y = some db.nextTerm := by
  unfold findTerm at h ⊢
  have h0 := Option.map_eq_none'.mp h
  show ((db.terms ++ [(⟨db.nextTerm, s, y⟩ : TermRow)]).find? _).map _ = _
  simp only [List.find?_append, h0, Option.none_or]
  simp [List.find?]

theorem step_termIns (db : Db) (s : String) (y : Int) : StepR db (termIns db s y) :=
  StepR_of_frames ⟨[⟨db.nextTerm, s, y⟩], by simp [termIns]⟩ ⟨[], by simp [termIns]⟩ ⟨[], by simp [termIns]⟩
    ⟨[], by simp [termIns]⟩ ⟨[], by simp [termIns]⟩ ⟨[], by simp [termIns]⟩ rfl

theorem get_subject_id_none {db : Db} {v : Option String} (h : norm v = "") :
    get_subject_id db v = (none, db) := by
  unfold get_subject_id
  simp [h]

theorem get_subject_id_hit {db : Db} {v : Option String} {s : Nat}
    (h : findSubjW db v = some s) : get_subject_id db v = (some s, db) := by
  unfold findSubjW at h
  by_cases he : norm v = ""
  · simp [he] at h
  · simp only [he, if_false] at h
    unfold get_subject_id
    simp [he, h]

theorem get_subject_id_miss {db : Db} {v : Option String} (hne : ¬ norm v = "")
    (h : findSubject db (norm v) = none) :
    get_subject_id db v = (some db.nextSubject, subjIns db v) := by
  unfold get_subject_id
  simp only [hne, if_false, h]
  rfl

theorem findSubjW_subjIns (db : Db) (v : Option String) (hne : ¬ norm v = "")
    (h : findSubject db (norm v) = none) :
    findSubjW (subjIns db v) v = some db.nextSubject := by
  unfold findSubject at h
  have h0 := Option.map_eq_none'.mp h
  unfold findSubjW findSubject
  simp only [hne, if_false]
  show ((db.subjects ++ [(⟨db.nextSubject, norm v⟩ : SubjectRow)]).find? _).map _ = _
  simp only [List.find?_append, h0, Option.none_or]
  simp [List.find?]

theorem step_subjIns (db : Db) (v : Option String) : StepR db (subjIns db v) :=
  StepR_of_frames ⟨[], by simp [subjIns]⟩ ⟨[⟨db.nextSubject, norm v⟩], by simp [subjIns]⟩ ⟨[], by simp [subjIns]⟩
    ⟨[], by simp [subjIns]⟩ ⟨[], by simp [subjIns]⟩ ⟨[], by simp [subjIns]⟩ rfl

theorem get_course_id_hit {db : Db} {sid : Nat} {n t : Option String} {c : Nat}
    (h : findCourse db sid (norm n) (norm t) = some c) :
    get_course_id db sid n t = (c, db) := by
  unfold get_course_id
  simp [h]

theorem get_course_id_miss {db : Db} {sid : Nat} {n t : Option String}
    (h : findCourse db sid (norm n) (norm t) = none) :
    get_course_id db sid n t = (db.nextCourse, courseIns db sid n t) := by
  unfold get_course_id
  simp only [h]
  rfl

theorem findCourse_courseIns (db : Db) (sid : Nat) (n t : Option String)
    (h : findCourse db sid (norm n) (norm t) = none) :
    findCourse (courseIns db sid n t) sid (norm n) (norm t) = some db.nextCourse := by
  unfold findCourse at h ⊢
  have h0 := Option.map_eq_none'.mp h
  show ((db.courses ++ [(⟨db.nextCourse, sid, norm n, norm t⟩ : CourseRow)]).find? _).map _ = _
  simp only [List.find?_append, h0, Option.none_or]
  simp [List.find?]

theorem step_courseIns (db : Db) (sid : Nat) (n t : Option String) :
    StepR db (courseIns db sid n t) :=
  StepR_of_frames ⟨[], by simp [courseIns]⟩ ⟨[], by simp [courseIns]⟩ ⟨[⟨db.nextCourse, sid, norm n, norm t⟩], by simp [courseIns]⟩
    ⟨[], by simp [courseIns]⟩ ⟨[], by simp [courseIns]⟩ ⟨[], by simp [courseIns]⟩ rfl

theorem get_instructor_id_none {db : Db} {n nid em : Option String} (h : norm n = "") :
    get_instructor_id db n nid em = (none, db) := by
  unfold get_instructor_id
  simp [h]

theorem get_instructor_id_hit {db : Db} {n nid em : Option String} {i : Nat}
    (h : findInstr db n nid em = some i) : get_instructor_id db n nid em = (some i, db) := by
  unfold findInstr at h
  by_cases he : norm n = ""
  · simp [he] at h
  · simp only [he, if_false] at h
    unfold get_instructor_id
    simp [he, h]

theorem get_instructor_id_miss {db : Db} {n nid em : Option String} (hne : ¬ norm n = "")
    (h : findInstructor db (norm n) (denull (some (norm nid))) (denull (some (norm em))) = none) :
    get_instructor_id db n nid em = (some db.nextInstructor, instrIns db n nid em) := by
  unfold get_instructor_id
  simp only [hne, if_false, h]
  rfl

theorem findInstr_instrIns (db : Db) (n nid em : Option String) (hne : ¬ norm n = "")
    (h : findInstructor db (norm n) (denull (some (norm nid))) (denull (some (norm em))) = none) :
    findInstr (instrIns db n nid em) n nid em = some db.nextInstructor := by
  unfold findInstr
  simp only [hne, if_false]
  unfold findInstructor at h ⊢
  have h0 := Option.map_eq_none'.mp h
  show ((db.instructors ++ [_]).find? _).map _ = _
  simp only [List.find?_append, h0, Option.none_or]
  simp [List.find?]

theorem step_instrIns (db : Db) (n nid em : Option String) : StepR db (instrIns db n nid em) :=
  StepR_of_frames ⟨[], by simp [instrIns]⟩ ⟨[], by simp [instrIns]⟩ ⟨[], by simp [instrIns]⟩
    ⟨[⟨db.nextInstructor, norm n, denull (some (norm nid)), denull (some (norm em))⟩],
      by simp [instrIns]⟩
    ⟨[], by simp [instrIns]⟩ ⟨[], by simp [instrIns]⟩ rfl

/-- The overwrite function of the section upsert. -/

theorem upsert_hit {db : Db} {cid tid : Nat} {crn : String} {lec : Option String}
    {cmin cmax : Option PyVal} {maxE curE : Option Int} {s0 : SectionRow}
    (h : db.sections.find? (fun s => s.termId == tid && s.crn == crn) = some s0) :
    upsert_section_and_get_id db cid tid crn lec cmin cmax maxE curE =
      (s0.secId, secUpd db cid tid crn lec cmin cmax maxE curE) := by
  unfold upsert_section_and_get_id
  simp only [h]
  rfl

theorem upsert_miss {db : Db} {cid tid : Nat} {crn : String} {lec : Option String}
    {cmin cmax : Option PyVal} {maxE curE : Option Int}
    (h : db.sections.find? (fun s => s.termId == tid && s.crn == crn) = none) :
    upsert_section_and_get_id db cid tid crn lec cmin cmax maxE curE =
      (db.nextSection, secIns db cid tid crn lec cmin cmax maxE curE) := by
  unfold upsert_section_and_get_id
  simp only [h]
  rfl

theorem findSec_upsert_hit {db : Db} {cid tid : Nat} {crn : String} {lec : Option String}
    {cmin cmax : Option PyVal} {maxE curE : Option Int} {s0 : SectionRow}
    (h : db.sections.find? (fun s => s.termId == tid && s.crn == crn) = some s0) :
    findSec (secUpd db cid tid crn lec cmin cmax maxE curE) tid crn = some s0.secId := by
  unfold findSec secUpd
  have hf := updateFirst_find? (fun s : SectionRow => s.termId == tid && s.crn == crn)
    (secOverwrite cid lec cmin cmax maxE curE) (fun _ => rfl) h
  show ((updateFirst _ _ db.sections).find? _).map _ = _
  rw [hf]
  rfl

theorem findSec_secIns {db : Db} {cid tid : Nat} {crn : String} {lec : Option String}
    {cmin cmax : Option PyVal} {maxE curE : Option Int}
    (h : db.sections.find? (fun s => s.termId == tid && s.crn == crn) = none) :
    findSec (secIns db cid tid crn lec cmin cmax maxE curE) tid crn = some db.nextSection := by
  unfold findSec
  show ((db.sections ++ [_]).find? _).map _ = _
  simp only [List.find?_append, h, Option.none_or]
  simp [List.find?]

theorem step_secUpd (db : Db) (cid tid : Nat) (crn : String) (lec : Option String)
    (cmin cmax : Option PyVal) (maxE curE : Option Int) :
    StepR db (secUpd db cid tid crn lec cmin cmax maxE curE) := by
  refine StepR_of_frames ⟨[], by simp [secUpd]⟩ ⟨[], by simp [secUpd]⟩ ⟨[], by simp [secUpd]⟩
    ⟨[], by simp [secUpd]⟩ ⟨[], by simp [secUpd]⟩ ⟨[], ?_⟩ rfl
  rw [List.append_nil]
  show secProj (updateFirst (fun s => s.termId == tid && s.crn == crn)
    (secOverwrite cid lec cmin cmax maxE curE) db.sections) = secProj db.sections
  unfold secProj
  exact updateFirst_map (fun s => s.termId == tid && s.crn == crn)
    (secOverwrite cid lec cmin cmax maxE curE)
    (fun s => (s.termId, s.crn, s.secId)) (fun _ => rfl) db.sections

theorem step_secIns (db : Db) (cid tid : Nat) (crn : String) (lec : Option String)
    (cmin cmax : Option PyVal) (maxE curE : Option Int) :
    StepR db (secIns db cid tid crn lec cmin cmax maxE curE) := by
  refine StepR_of_frames ⟨[], by simp [secIns]⟩ ⟨[], by simp [secIns]⟩ ⟨[], by simp [secIns]⟩
    ⟨[], by simp [secIns]⟩ ⟨[], by simp [secIns]⟩
    ⟨secProj [⟨db.nextSection, cid, tid, crn, lec, cmin, cmax, maxE, curE⟩], ?_⟩ rfl
  show secProj (db.sections ++ _) = secProj db.sections ++ _
  unfold secProj
  rw [List.map_append]

/-! ### Row-level lemmas -/

theorem filter_not_filter (p : α → Bool) (l : List α) :
    (l.filter (fun x => !p x)).filter p = [] := by
  induction l with
  | nil => rfl
  | cons a l ih =>
    by_cases ha : p a = true
    · simp [List.filter_cons, ha, ih]
    · have ha' : p a = false := by simpa using ha
      simp [List.filter_cons, ha', ih]

theorem meetCount_meetReplace (db : Db) (sid : Nat) (r : Row) (x : Nat) :
    meetCount (meetReplace db sid r) x = if x = sid then 1 else meetCount db x := by
  unfold meetCount meetReplace
  simp only [List.filter_append, List.length_append]
  by_cases hx : x = sid
  · subst hx
    rw [if_pos rfl]
    rw [filter_not_filter (fun (m : MeetingRow) => m.sectionId == x) db.meetings]
    have hm : List.filter (fun (m : MeetingRow) => m.sectionId == x) [meetingFor db x r] =
        [meetingFor db x r] := by
      rw [List.filter_cons]
      rw [if_pos (by simp [meetingFor])]
      rfl
    rw [hm]
    rfl
  · rw [if_neg hx]
    have h1 : (db.meetings.filter (fun m => !(m.sectionId == sid))).filter
        (fun m => m.sectionId == x) = db.meetings.filter (fun m => m.sectionId == x) := by
      rw [List.filter_filter]
      apply List.filter_congr
      intro a _
      cases hax : (a.sectionId == x) with
      | false => simp
      | true =>
        have hax' : a.sectionId = x := by simpa using hax
        have hsid : (a.sectionId == sid) = false := by
          rw [hax']
          exact beq_eq_false_iff_ne.mpr hx
        simp [hsid]
    rw [h1]
    have h2 : (List.filter (fun (m : MeetingRow) => m.sectionId == x) [meetingFor db sid r]) = [] := by
      rw [List.filter_cons]
      rw [if_neg (by simp [meetingFor]; exact fun h => hx h.symm)]
      rfl
    rw [h2]
    simp

theorem meetReplace_frames (db : Db) (sid : Nat) (r : Row) :
    (meetReplace db sid r).terms = db.terms ∧ (meetReplace db sid r).subjects = db.subjects ∧
    (meetReplace db sid r).courses = db.courses ∧
    (meetReplace db sid r).instructors = db.instructors ∧
    (meetReplace db sid r).sections = db.sections ∧ (meetReplace db sid r).links = db.links :=
  ⟨rfl, rfl, rfl, rfl, rfl, rfl⟩

theorem step_meetReplace (db : Db) (sid : Nat) (r : Row) : StepR db (meetReplace db sid r) := by
  refine ⟨⟨⟨[], by simp [meetReplace]⟩, ⟨[], by simp [meetReplace]⟩, ⟨[], by simp [meetReplace]⟩,
    ⟨[], by simp [meetReplace]⟩, ⟨[], by simp [meetReplace]⟩, ⟨[], by simp [meetReplace]⟩⟩, ?_⟩
  intro x hx
  rw [meetCount_meetReplace]
  split
  · rfl
  · exact hx

theorem counts_meetReplace {db : Db} {sid : Nat} (r : Row) (h : meetCount db sid = 1) :
    counts (meetReplace db sid r) = counts db := by
  unfold counts meetReplace
  simp only
  congr 1
  simp only [List.length_append, List.length_cons, List.length_nil]
  unfold meetCount at h
  have h3 := @List.length_eq_length_filter_add MeetingRow db.meetings
    (fun m => m.sectionId == sid)
  omega

theorem linkIns_frames (db : Db) (sid iid : Nat) :
    (linkIns db sid iid).terms = db.terms ∧ (linkIns db sid iid).subjects = db.subjects ∧
    (linkIns db sid iid).courses = db.courses ∧
    (linkIns db sid iid).instructors = db.instructors ∧
    (linkIns db sid iid).sections = db.sections ∧
    (linkIns db sid iid).meetings = db.meetings := by
  unfold linkIns
  split <;> exact ⟨rfl, rfl, rfl, rfl, rfl, rfl⟩

theorem step_linkIns (db : Db) (sid iid : Nat) : StepR db (linkIns db sid iid) := by
  unfold linkIns
  split
  · exact StepR_refl db
  · exact StepR_of_frames ⟨[], by simp⟩ ⟨[], by simp⟩ ⟨[], by simp⟩ ⟨[], by simp⟩
      ⟨[⟨sid, iid, none⟩], by simp⟩ ⟨[], by simp⟩ rfl

theorem linkIns_any (db : Db) (sid iid : Nat) :
    (linkIns db sid iid).links.any (fun l => l.sectionId == sid && l.instructorId == iid) = true := by
  unfold linkIns
  split
  · assumption
  · simp [List.any_append]

theorem get_instructor_id_frames (db : Db) (n nid em : Option String) :
    (get_instructor_id db n nid em).2.terms = db.terms ∧
    (get_instructor_id db n nid em).2.subjects = db.subjects ∧
    (get_instructor_id db n nid em).2.courses = db.courses ∧
    (get_instructor_id db n nid em).2.sections = db.sections ∧
    (get_instructor_id db n nid em).2.meetings = db.meetings ∧
    (get_instructor_id db n nid em).2.links = db.links := by
  unfold get_instructor_id
  by_cases he : norm n = ""
  · rw [if_pos he]
    exact ⟨rfl, rfl, rfl, rfl, rfl, rfl⟩
  · rw [if_neg he]
    cases h : findInstructor db (norm n) (denull (some (norm nid))) (denull (some (norm em))) <;>
      exact ⟨rfl, rfl, rfl, rfl, rfl, rfl⟩

theorem instrPhase_eq_none {db : Db} {sid : Nat} {r : Row}
    (h : denull r.instructor = none) : instrPhase db sid r = db := by
  unfold instrPhase
  rw [h]

theorem instrPhase_eq_some {db : Db} {sid : Nat} {r : Row} {nm : String}
    (h : denull r.instructor = some nm) :
    instrPhase db sid r =
      (match get_instructor_id db (some nm) r.netid r.email with
       | (none, db1) => db1
       | (some iid, db1) => if iid = 0 then db1 else linkIns db1 sid iid) := by
  unfold instrPhase
  rw [h]

theorem instrPhase_frames (db : Db) (sid : Nat) (r : Row) :
    (instrPhase db sid r).terms = db.terms ∧ (instrPhase db sid r).subjects = db.subjects ∧
    (instrPhase db sid r).courses = db.courses ∧
    (instrPhase db sid r).sections = db.sections ∧
    (instrPhase db sid r).meetings = db.meetings := by
  cases hd : denull r.instructor with
  | none =>
    rw [instrPhase_eq_none hd]
    exact ⟨rfl, rfl, rfl, rfl, rfl⟩
  | some nm =>
    rw [instrPhase_eq_some hd]
    have hg := get_instructor_id_frames db (some nm) r.netid r.email
    cases hi : get_instructor_id db (some nm) r.netid r.email with
    | mk res db1 =>
      rw [hi] at hg
      cases res with
      | none => exact ⟨hg.1, hg.2.1, hg.2.2.1, hg.2.2.2.1, hg.2.2.2.2.1⟩
      | some iid =>
        by_cases h0 : iid = 0
        · simp only [h0, if_true]
          exact ⟨hg.1, hg.2.1, hg.2.2.1, hg.2.2.2.1, hg.2.2.2.2.1⟩
        · simp only [h0, if_false]
          have hl := linkIns_frames db1 sid iid
          exact ⟨hl.1.trans hg.1, hl.2.1.trans hg.2.1, hl.2.2.1.trans hg.2.2.1,
            hl.2.2.2.2.1.trans hg.2.2.2.1, hl.2.2.2.2.2.trans hg.2.2.2.2.1⟩

theorem step_instrPhase (db : Db) (sid : Nat) (r : Row) : StepR db (instrPhase db sid r) := by
  cases hd : denull r.instructor with
  | none =>
    rw [instrPhase_eq_none hd]
    exact StepR_refl db
  | some nm =>
    rw [instrPhase_eq_some hd]
    by_cases he : norm (some nm) = ""
    · rw [get_instructor_id_none he]
      exact StepR_refl db
    · cases h : findInstructor db (norm (some nm)) (denull (some (norm r.netid)))
        (denull (some (norm r.email))) with
      | some i =>
        rw [get_instructor_id_hit (show findInstr db (some nm) r.netid r.email = some i by
          unfold findInstr; simp [he, h])]
        show StepR db (if i = 0 then db else linkIns db sid i)
        by_cases h0 : i = 0
        · rw [if_pos h0]
          exact StepR_refl db
        · rw [if_neg h0]
          exact step_linkIns db sid i
      | none =>
        rw [get_instructor_id_miss he h]
        show StepR db (if db.nextInstructor = 0 then instrIns db (some nm) r.netid r.email
          else linkIns (instrIns db (some nm) r.netid r.email) sid db.nextInstructor)
        by_cases h0 : db.nextInstructor = 0
        · rw [if_pos h0]
          exact step_instrIns db (some nm) r.netid r.email
        · rw [if_neg h0]
          exact StepR_trans (step_instrIns db (some nm) r.netid r.email)
            (step_linkIns _ sid db.nextInstructor)

theorem findInstr_congr {db db' : Db} (h : db'.instructors = db.instructors)
    (n nid em : Option String) : findInstr db' n nid em = findInstr db n nid em := by
  unfold findInstr findInstructor
  rw [h]

theorem linkAny_congr {db db' : Db} (h : db'.links = db.links) (q : LinkRow → Bool) :
    db'.links.any q = db.links.any q := by
  rw [h]

theorem InstrClause_congr {db db' : Db} (hi : db'.instructors = db.instructors)
    (hl : db'.links = db.links) {secid : Nat} {r : Row}
    (hc : InstrClause db secid r) : InstrClause db' secid r := by
  unfold InstrClause at hc ⊢
  revert hc
  cases denull r.instructor with
  | none => exact fun hc => hc
  | some nm =>
    rintro (he | ⟨iid, hfind, hor⟩)
    · exact Or.inl he
    · refine Or.inr ⟨iid, ?_, ?_⟩
      · rw [findInstr_congr hi]
        exact hfind
      · rcases hor with h0 | hany
        · exact Or.inl h0
        · exact Or.inr (by rw [linkAny_congr hl]; exact hany)

theorem instrPhase_post (db : Db) (sid : Nat) (r : Row) :
    InstrClause (instrPhase db sid r) sid r := by
  unfold InstrClause
  cases hd : denull r.instructor with
  | none => trivial
  | some nm =>
    rw [instrPhase_eq_some hd]
    by_cases he : norm (some nm) = ""
    · rw [get_instructor_id_none he]
      exact Or.inl he
    · cases h : findInstructor db (norm (some nm)) (denull (some (norm r.netid)))
        (denull (some (norm r.email))) with
      | some i =>
        rw [get_instructor_id_hit (show findInstr db (some nm) r.netid r.email = some i by
          unfold findInstr; simp [he, h])]
        by_cases h0 : i = 0
        · simp only [h0, if_true]
          exact Or.inr ⟨0, by unfold findInstr; simp [he]; simpa [h0] using h, Or.inl rfl⟩
        · simp only [h0, if_false]
          refine Or.inr ⟨i, ?_, Or.inr (linkIns_any db sid i)⟩
          rw [findInstr_congr (linkIns_frames db sid i).2.2.2.1]
          unfold findInstr
          simp [he, h]
      | none =>
        rw [get_instructor_id_miss he h]
        by_cases h0 : db.nextInstructor = 0
        · simp only [h0, if_true]
          refine Or.inr ⟨db.nextInstructor, ?_, Or.inl h0⟩
          exact findInstr_instrIns db (some nm) r.netid r.email he h
        · simp only [h0, if_false]
          refine Or.inr ⟨db.nextInstructor, ?_,
            Or.inr (linkIns_any (instrIns db (some nm) r.netid r.email) sid db.nextInstructor)⟩
          rw [findInstr_congr
            (linkIns_frames (instrIns db (some nm) r.netid r.email) sid db.nextInstructor).2.2.2.1]
          exact findInstr_instrIns db (some nm) r.netid r.email he h

theorem instrPhase_stagnant {db : Db} {sid : Nat} {r : Row}
    (hc : InstrClause db sid r) : instrPhase db sid r = db := by
  unfold InstrClause at hc
  revert hc
  cases hd : denull r.instructor with
  | none => intro _; exact instrPhase_eq_none hd
  | some nm =>
    rw [instrPhase_eq_some hd]
    rintro (he | ⟨iid, hfind, hor⟩)
    · rw [get_instructor_id_none he]
    · rw [get_instructor_id_hit hfind]
      show (if iid = 0 then db else linkIns db sid iid) = db
      rcases hor with h0 | hany
      · rw [if_pos h0]
      · by_cases h0 : iid = 0
        · rw [if_pos h0]
        · rw [if_neg h0]
          unfold linkIns
          rw [if_pos hany]

/-! ### Existential specifications of the resolution phases -/

theorem get_subject_id_spec (db : Db) (v : Option String) (hne : ¬ norm v = "") :
    ∃ s db1, get_subject_id db v = (some s, db1) ∧ findSubjW db1 v = some s ∧ StepR db db1 ∧
      db1.meetings = db.meetings := by
  cases h : findSubject db (norm v) with
  | some s =>
    have hw : findSubjW db v = some s := by
      unfold findSubjW
      rw [if_neg hne]
      exact h
    exact ⟨s, db, get_subject_id_hit hw, hw, StepR_refl db, rfl⟩
  | none =>
    exact ⟨db.nextSubject, subjIns db v, get_subject_id_miss hne h,
      findSubjW_subjIns db v hne h, step_subjIns db v, rfl⟩

theorem get_course_id_spec (db : Db) (sid : Nat) (n t : Option String) :
    ∃ c db1, get_course_id db sid n t = (c, db1) ∧
      findCourse db1 sid (norm n) (norm t) = some c ∧ StepR db db1 ∧
      db1.meetings = db.meetings := by
  cases h : findCourse db sid (norm n) (norm t) with
  | some c => exact ⟨c, db, get_course_id_hit h, h, StepR_refl db, rfl⟩
  | none =>
    exact ⟨db.nextCourse, courseIns db sid n t, get_course_id_miss h,
      findCourse_courseIns db sid n t h, step_courseIns db sid n t, rfl⟩

theorem upsert_spec (db : Db) (cid tid : Nat) (crn : String) (lec : Option String)
    (cmin cmax : Option PyVal) (maxE curE : Option Int) :
    ∃ sid db1, upsert_section_and_get_id db cid tid crn lec cmin cmax maxE curE = (sid, db1) ∧
      findSec db1 tid crn = some sid ∧ StepR db db1 ∧ db1.meetings = db.meetings := by
  cases h : db.sections.find? (fun s => s.termId == tid && s.crn == crn) with
  | some s0 =>
    exact ⟨s0.secId, secUpd db cid tid crn lec cmin cmax maxE curE, upsert_hit h,
      findSec_upsert_hit h, step_secUpd db cid tid crn lec cmin cmax maxE curE, rfl⟩
  | none =>
    exact ⟨db.nextSection, secIns db cid tid crn lec cmin cmax maxE curE, upsert_miss h,
      findSec_secIns h, step_secIns db cid tid crn lec cmin cmax maxE curE, rfl⟩

/-! ### `processRow`: skip, establish, and stagnant re-processing -/

theorem valid_parts {r : Row} (hv : validRow r = true) :
    is_missing r.subj = false ∧ is_missing r.number = false ∧
    is_missing r.title = false ∧ is_missing r.crn = false := by
  unfold validRow at hv
  simp only [Bool.not_eq_true', Bool.or_eq_false_iff] at hv
  exact ⟨hv.1.1.1, hv.1.1.2, hv.1.2, hv.2⟩

theorem is_missing_false_ne {v : Option String} (h : is_missing v = false) :
    ¬ norm v = "" := by
  unfold is_missing at h
  unfold norm
  simp only [Bool.or_eq_false_iff, decide_eq_false_iff_not] at h
  exact h.1

theorem meetCount_congr {db db' : Db} (h : db'.meetings = db.meetings) (x : Nat) :
    meetCount db' x = meetCount db x := by
  unfold meetCount
  rw [h]

theorem counts_secUpd (db : Db) (cid tid : Nat) (crn : String) (lec : Option String)
    (cmin cmax : Option PyVal) (maxE curE : Option Int) :
    counts (secUpd db cid tid crn lec cmin cmax maxE curE) = counts db := by
  unfold counts secUpd
  simp [updateFirst_length]

theorem processRow_skip {db : Db} {tid : Nat} {r : Row} (hv : validRow r = false) :
    processRow db tid r = db := by
  unfold processRow
  rw [hv]
  rfl

theorem processRow_eq_phases {db : Db} {tid : Nat} {r : Row} (hv : validRow r = true)
    {sid : Nat} {db1 : Db} (e1 : get_subject_id db r.subj = (some sid, db1))
    {cid : Nat} {db2 : Db} (e2 : get_course_id db1 sid r.number r.title = (cid, db2))
    {secid : Nat} {db3 : Db}
    (e3 : upsert_section_and_get_id db2 cid tid (r.crn.getD "") r.lecLab
      (AllTerms.parse_credits r.credits).1 (AllTerms.parse_credits r.credits).2
      (to_int r.maxEnr) (to_int r.curEnr) = (secid, db3)) :
    processRow db tid r = instrPhase (meetReplace db3 secid r) secid r := by
  unfold processRow
  rw [hv]
  rw [if_neg (by simp)]
  rw [e1]
  simp only [e2, e3]

theorem processRow_post (db : Db) (tid : Nat) (r : Row) (hv : validRow r = true) :
    StepR db (processRow db tid r) ∧ RowReady (processRow db tid r) tid r := by
  have hne : ¬ norm r.subj = "" := is_missing_false_ne (valid_parts hv).1
  obtain ⟨sid, db1, e1, f1, st1, hm1⟩ := get_subject_id_spec db r.subj hne
  obtain ⟨cid, db2, e2, f2, st2, hm2⟩ := get_course_id_spec db1 sid r.number r.title
  obtain ⟨secid, db3, e3, f3, st3, hm3⟩ := upsert_spec db2 cid tid (r.crn.getD "") r.lecLab
    (AllTerms.parse_credits r.credits).1 (AllTerms.parse_credits r.credits).2
    (to_int r.maxEnr) (to_int r.curEnr)
  rw [processRow_eq_phases hv e1 e2 e3]
  have st4 := step_meetReplace db3 secid r
  have st5 := step_instrPhase (meetReplace db3 secid r) secid r
  have st45 := StepR_trans st4 st5
  refine ⟨StepR_trans st1 (StepR_trans st2 (StepR_trans st3 st45)), sid, cid, secid,
    ?_, ?_, ?_, ?_, ?_⟩
  · exact findSubjW_stable (StepR_trans st2 (StepR_trans st3 st45)).1 f1
  · exact findCourse_stable (StepR_trans st3 st45).1 f2
  · exact findSec_stable st45.1 f3
  · rw [meetCount_congr (instrPhase_frames (meetReplace db3 secid r) secid r).2.2.2.2]
    rw [meetCount_meetReplace]
    rw [if_pos rfl]
  · exact instrPhase_post (meetReplace db3 secid r) secid r

theorem processRow_stagnant {db : Db} {tid : Nat} {r : Row} (hv : validRow r = true)
    (hr : RowReady db tid r) : counts (processRow db tid r) = counts db := by
  obtain ⟨sid, cid, secid, h1, h2, h3, h4, h5⟩ := hr
  have e1 := get_subject_id_hit h1
  have e2 := get_course_id_hit h2
  unfold findSec at h3
  obtain ⟨s0, hf0, hs0⟩ := Option.map_eq_some'.mp h3
  have e3 := @upsert_hit db cid tid (r.crn.getD "") r.lecLab
    (AllTerms.parse_credits r.credits).1 (AllTerms.parse_credits r.credits).2
    (to_int r.maxEnr) (to_int r.curEnr) s0 hf0
  have e3' : upsert_section_and_get_id db cid tid (r.crn.getD "") r.lecLab
      (AllTerms.parse_credits r.credits).1 (AllTerms.parse_credits r.credits).2
      (to_int r.maxEnr) (to_int r.curEnr) =
      (secid, secUpd db cid tid (r.crn.getD "") r.lecLab
        (AllTerms.parse_credits r.credits).1 (AllTerms.parse_credits r.credits).2
        (to_int r.maxEnr) (to_int r.curEnr)) := by
    rw [e3, hs0]
  rw [processRow_eq_phases hv e1 e2 e3']
  have hIC : InstrClause (meetReplace (secUpd db cid tid (r.crn.getD "") r.lecLab
      (AllTerms.parse_credits r.credits).1 (AllTerms.parse_credits r.credits).2
      (to_int r.maxEnr) (to_int r.curEnr)) secid r) secid r :=
    InstrClause_congr rfl rfl h5
  rw [instrPhase_stagnant hIC]
  have h4' : meetCount (secUpd db cid tid (r.crn.getD "") r.lecLab
      (AllTerms.parse_credits r.credits).1 (AllTerms.parse_credits r.credits).2
      (to_int r.maxEnr) (to_int r.curEnr)) secid = 1 := h4
  rw [counts_meetReplace r h4']
  exact counts_secUpd db cid tid (r.crn.getD "") r.lecLab
    (AllTerms.parse_credits r.credits).1 (AllTerms.parse_credits r.credits).2
    (to_int r.maxEnr) (to_int r.curEnr)

/-! ### File- and run-level lemmas -/

theorem processRow_step (db : Db) (tid : Nat) (r : Row) : StepR db (processRow db tid r) := by
  cases hv : validRow r with
  | false =>
    rw [processRow_skip hv]
    exact StepR_refl db
  | true => exact (processRow_post db tid r hv).1

theorem fold_step (tid : Nat) (rows : List Row) (db : Db) :
    StepR db (rows.foldl (fun d r => processRow d tid r) db) := by
  induction rows generalizing db with
  | nil => exact StepR_refl db
  | cons a l ih =>
    rw [List.foldl_cons]
    exact StepR_trans (processRow_step db tid a) (ih (processRow db tid a))

theorem fold_post (tid : Nat) (rows : List Row) (db : Db) :
    ∀ r ∈ rows, validRow r = true →
      RowReady (rows.foldl (fun d x => processRow d tid x) db) tid r := by
  induction rows generalizing db with
  | nil => intro r hm; exact absurd hm (List.not_mem_nil r)
  | cons a l ih =>
    intro r hm hv
    rw [List.foldl_cons]
    rcases List.mem_cons.mp hm with rfl | hm2
    · exact RowReady_mono (fold_step tid l (processRow db tid r))
        (processRow_post db tid r hv).2
    · exact ih (processRow db tid a) r hm2 hv

theorem fold_stagnant (tid : Nat) (rows : List Row) (db : Db)
    (h : ∀ r ∈ rows, validRow r = true → RowReady db tid r) :
    counts (rows.foldl (fun d x => processRow d tid x) db) = counts db := by
  induction rows generalizing db with
  | nil => rfl
  | cons a l ih =>
    rw [List.foldl_cons]
    cases hv : validRow a with
    | false =>
      rw [processRow_skip hv]
      exact ih db (fun r hm hv' => h r (List.mem_cons_of_mem a hm) hv')
    | true =>
      have hc : counts (processRow db tid a) = counts db :=
        processRow_stagnant hv (h a (List.mem_cons_self a l) hv)
      have hpres : ∀ r ∈ l, validRow r = true → RowReady (processRow db tid a) tid r :=
        fun r hm hv' => RowReady_mono (processRow_step db tid a)
          (h r (List.mem_cons_of_mem a hm) hv')
      rw [ih (processRow db tid a) hpres, hc]

theorem get_term_id_step (db : Db) (s : String) (y : Int) :
    StepR db (get_term_id db s y).2 := by
  cases h : findTerm db s y with
  | some t =>
    rw [get_term_id_hit h]
    exact StepR_refl db
  | none =>
    rw [get_term_id_miss h]
    exact step_termIns db s y

theorem get_term_id_post (db : Db) (s : String) (y : Int) :
    findTerm (get_term_id db s y).2 s y = some (get_term_id db s y).1 := by
  cases h : findTerm db s y with
  | some t =>
    rw [get_term_id_hit h]
    exact h
  | none =>
    rw [get_term_id_miss h]
    exact findTerm_termIns db s y h

theorem FileReady_mono {db db' : Db} (h : StepR db db') {f : CsvFile}
    (hf : FileReady db f) : FileReady db' f := by
  intro r0 rest sem yr hrows hderiv
  obtain ⟨t, hft, hready⟩ := hf r0 rest sem yr hrows hderiv
  exact ⟨t, findTerm_stable h.1 hft,
    fun r hm hv => RowReady_mono h (hready r hm hv)⟩

theorem ingest_csv_nil {db : Db} {f : CsvFile} (h : f.rows = []) :
    ingest_csv db f = some db := by
  unfold ingest_csv
  rw [h]

theorem ingest_csv_run {db : Db} {f : CsvFile} {r0 : Row} {rest : List Row}
    {sem : String} {yr : Int} (hrows : f.rows = r0 :: rest)
    (hderiv : derivTerm f.name r0 = (sem, some yr)) :
    ingest_csv db f = some (f.rows.foldl
      (fun d r => processRow d (get_term_id db sem yr).1 r) (get_term_id db sem yr).2) := by
  unfold ingest_csv
  rw [hrows]
  show (match derivTerm f.name r0 with
        | (sem, some yr) =>
          let td := get_term_id db sem yr
          some (List.foldl (fun d r => processRow d td.1 r) td.2 (r0 :: rest))
        | (_, none) => none) =
      some (List.foldl (fun d r => processRow d (get_term_id db sem yr).1 r)
        (get_term_id db sem yr).2 (r0 :: rest))
  rw [hderiv]

theorem ingest_csv_fail {db : Db} {f : CsvFile} {r0 : Row} {rest : List Row}
    {sem : String} (hrows : f.rows = r0 :: rest)
    (hderiv : derivTerm f.name r0 = (sem, none)) : ingest_csv db f = none := by
  unfold ingest_csv
  rw [hrows]
  show (match derivTerm f.name r0 with
        | (sem, some yr) =>
          let td := get_term_id db sem yr
          some (List.foldl (fun d r => processRow d td.1 r) td.2 (r0 :: rest))
        | (_, none) => none) = none
  rw [hderiv]

theorem ingest_csv_post {db db' : Db} {f : CsvFile} (h : ingest_csv db f = some db') :
    StepR db db' ∧ FileReady db' f := by
  cases hrows : f.rows with
  | nil =>
    rw [ingest_csv_nil hrows] at h
    cases h
    refine ⟨StepR_refl db, ?_⟩
    intro r0 rest sem yr hr
    rw [hrows] at hr
    cases hr
  | cons r0 rest =>
    cases hderiv : derivTerm f.name r0 with
    | mk sem yro =>
      cases yro with
      | none =>
        rw [ingest_csv_fail hrows hderiv] at h
        cases h
      | some yr =>
        rw [ingest_csv_run hrows hderiv] at h
        cases h
        have stT := get_term_id_step db sem yr
        have stF := fold_step (get_term_id db sem yr).1 f.rows (get_term_id db sem yr).2
        refine ⟨StepR_trans stT stF, ?_⟩
        intro r0' rest' sem' yr' hrows' hderiv'
        have hcons : r0 :: rest = r0' :: rest' := hrows.symm.trans hrows'
        injection hcons with hr0 hrest
        subst hr0
        have heq : (sem, (some yr : Option Int)) = (sem', some yr') :=
          hderiv.symm.trans hderiv'
        injection heq with hs hy
        injection hy with hy2
        subst hs
        subst hy2
        refine ⟨(get_term_id db sem yr).1, ?_, ?_⟩
        · exact findTerm_stable stF.1 (get_term_id_post db sem yr)
        · exact fold_post (get_term_id db sem yr).1 f.rows (get_term_id db sem yr).2

theorem ingest_csv_some_any {dbx db0 : Db} (db : Db) {f : CsvFile}
    (h : ingest_csv dbx f = some db0) : ∃ db', ingest_csv db f = some db' := by
  cases hrows : f.rows with
  | nil => exact ⟨db, ingest_csv_nil hrows⟩
  | cons r0 rest =>
    cases hderiv : derivTerm f.name r0 with
    | mk sem yro =>
      cases yro with
      | none =>
        rw [ingest_csv_fail hrows hderiv] at h
        cases h
      | some yr => exact ⟨_, ingest_csv_run hrows hderiv⟩

theorem ingest_csv_stagnant {db db' : Db} {f : CsvFile} (hfr : FileReady db f)
    (h : ingest_csv db f = some db') : counts db' = counts db := by
  cases hrows : f.rows with
  | nil =>
    rw [ingest_csv_nil hrows] at h
    cases h
    rfl
  | cons r0 rest =>
    cases hderiv : derivTerm f.name r0 with
    | mk sem yro =>
      cases yro with
      | none =>
        rw [ingest_csv_fail hrows hderiv] at h
        cases h
      | some yr =>
        obtain ⟨t, hft, hready⟩ := hfr r0 rest sem yr hrows hderiv
        rw [ingest_csv_run hrows hderiv] at h
        rw [get_term_id_hit hft] at h
        cases h
        exact fold_stagnant t f.rows db hready

theorem ingestAll_post {db db1 : Db} {fs : List CsvFile}
    (h : ingestAll db fs = some db1) : StepR db db1 ∧ ∀ f ∈ fs, FileReady db1 f := by
  induction fs generalizing db with
  | nil =>
    cases h
    exact ⟨StepR_refl _, fun f hf => absurd hf (List.not_mem_nil f)⟩
  | cons f fs ih =>
    unfold ingestAll at h
    cases hA : ingest_csv db f with
    | none => rw [hA] at h; cases h
    | some dbA =>
      rw [hA] at h
      obtain ⟨stR, hFs⟩ := ih h
      obtain ⟨stA, hFA⟩ := ingest_csv_post hA
      refine ⟨StepR_trans stA stR, ?_⟩
      intro g hg
      rcases List.mem_cons.mp hg with rfl | hg2
      · exact FileReady_mono stR hFA
      · exact hFs g hg2

theorem ingestAll_stagnant {db dbx db0 : Db} {fs : List CsvFile}
    (hfr : ∀ f ∈ fs, FileReady db f) (hev : ingestAll dbx fs = some db0) :
    ∃ db2, ingestAll db fs = some db2 ∧ counts db2 = counts db := by
  induction fs generalizing db dbx with
  | nil => exact ⟨db, rfl, rfl⟩
  | cons f fs ih =>
    unfold ingestAll at hev
    cases hAx : ingest_csv dbx f with
    | none => rw [hAx] at hev; cases hev
    | some dbA0 =>
      rw [hAx] at hev
      obtain ⟨dbA, hA⟩ := ingest_csv_some_any db hAx
      have hcA : counts dbA = counts db :=
        ingest_csv_stagnant (hfr f (List.mem_cons_self f fs)) hA
      obtain ⟨stA, _⟩ := ingest_csv_post hA
      have hfr2 : ∀ g ∈ fs, FileReady dbA g :=
        fun g hg => FileReady_mono stA (hfr g (List.mem_cons_of_mem f hg))
      obtain ⟨db2, h2, hc2⟩ := ih hfr2 hev
      refine ⟨db2, ?_, hc2.trans hcA⟩
      unfold ingestAll
      rw [hA]
      exact h2

theorem filter_not_idem (q : α → Bool) (l : List α) :
    (l.filter (fun x => !q x)).filter (fun x => !q x) = l.filter (fun x => !q x) := by
  rw [List.filter_filter]
  congr 1
  funext a
  rw [Bool.and_self]

/-! ### String-normalization lemmas -/

theorem wordsOf_nil : wordsOf [] = [] := by
  simp only [wordsOf]

theorem dropWhile_head_false {α : Type} {p : α → Bool} :
    ∀ {l : List α} {a : α} {t : List α}, l.dropWhile p = a :: t → p a = false := by
  intro l
  induction l with
  | nil => intro a t h; simp [List.dropWhile] at h
  | cons x xs ih =>
    intro a t h
    rw [List.dropWhile_cons] at h
    by_cases hx : p x
    · rw [if_pos hx] at h
      exact ih h
    · rw [if_neg hx] at h
      injection h with h1 _
      subst h1
      exact Bool.not_eq_true _ ▸ (by simpa using hx)

theorem collapseWsGo_false_space {c : Char} (hc : isPySpace c = true) (rest : List Char) :
    collapseWsGo false (c :: rest) = ' ' :: collapseWsGo true rest := by
  show (if isPySpace c then
      (if false then collapseWsGo true rest else ' ' :: collapseWsGo true rest)
    else c :: collapseWsGo false rest) = _
  rw [hc]
  rfl

theorem collapseWsGo_false_word {c : Char} (hc : isPySpace c = false) (rest : List Char) :
    collapseWsGo false (c :: rest) = c :: collapseWsGo false rest := by
  show (if isPySpace c then
      (if false then collapseWsGo true rest else ' ' :: collapseWsGo true rest)
    else c :: collapseWsGo false rest) = _
  rw [hc]
  rfl

theorem collapseWsGo_true (r : List Char) :
    collapseWsGo true r = collapseWsGo false (r.dropWhile isPySpace) := by
  induction r with
  | nil => rfl
  | cons c rest ih =>
    cases hc : isPySpace c with
    | true =>
      show (if isPySpace c then collapseWsGo true rest else c :: collapseWsGo false rest) = _
      rw [hc, List.dropWhile_cons, if_pos hc]
      exact ih
    | false =>
      show (if isPySpace c then collapseWsGo true rest else c :: collapseWsGo false rest) = _
      rw [List.dropWhile_cons, hc, if_neg Bool.false_ne_true, if_neg Bool.false_ne_true,
        collapseWsGo_false_word hc]

theorem collapseWsGo_word : ∀ (w t : List Char), (∀ c ∈ w, isPySpace c = false) →
    collapseWsGo false (w ++ t) = w ++ collapseWsGo false t := by
  intro w
  induction w with
  | nil => intro t _; rfl
  | cons c ws ih =>
    intro t hall
    rw [List.cons_append, collapseWsGo_false_word (hall c (List.mem_cons_self c ws))]
    rw [ih t (fun x hx => hall x (List.mem_cons_of_mem c hx))]
    rfl

theorem wordsOf_cons_space {c : Char} (hc : isPySpace c = true) (rest : List Char) :
    wordsOf (c :: rest) = wordsOf rest := by
  simp only [wordsOf]
  rw [if_pos hc]

theorem wordsOf_cons_word {c : Char} (hc : isPySpace c = false) (rest : List Char) :
    wordsOf (c :: rest) =
      ((c :: rest).takeWhile (fun x => !isPySpace x)) ::
        wordsOf (rest.dropWhile (fun x => !isPySpace x)) := by
  simp only [wordsOf]
  rw [if_neg (by rw [hc]; exact Bool.false_ne_true)]

theorem wordsOf_dropWhile : ∀ l : List Char, wordsOf (l.dropWhile isPySpace) = wordsOf l := by
  intro l
  induction l with
  | nil => rfl
  | cons c rest ih =>
    cases hc : isPySpace c with
    | true => rw [List.dropWhile_cons, if_pos hc, ih, wordsOf_cons_space hc]
    | false => rw [List.dropWhile_cons, if_neg (by rw [hc]; exact Bool.false_ne_true)]

theorem pyStripL_cons_space {c : Char} (hc : isPySpace c = true) (l : List Char) :
    pyStripL (c :: l) = pyStripL l := by
  unfold pyStripL
  rw [List.dropWhile_cons, if_pos hc]

theorem pyStripL_word_append (w X : List Char) (hne : w ≠ [])
    (hall : ∀ c ∈ w, isPySpace c = false) :
    pyStripL (w ++ X) = w ++ pyStripR X := by
  obtain ⟨c, w', rfl⟩ := List.exists_cons_of_ne_nil hne
  unfold pyStripL pyStripR
  rw [List.cons_append, List.dropWhile_cons,
    if_neg (by rw [hall c (List.mem_cons_self c w')]; exact Bool.false_ne_true)]
  rw [show (c :: (w' ++ X)) = (c :: w') ++ X from rfl]
  rw [List.reverse_append, List.dropWhile_append]
  have hwrev : (c :: w').reverse.dropWhile isPySpace = (c :: w').reverse := by
    have hrevne : (c :: w').reverse ≠ [] := by simp
    obtain ⟨d, ds, hd⟩ := List.exists_cons_of_ne_nil hrevne
    rw [hd, List.dropWhile_cons, if_neg ?_]
    have hdmem : d ∈ (c :: w').reverse := by rw [hd]; exact List.mem_cons_self d ds
    rw [List.mem_reverse] at hdmem
    rw [hall d hdmem]
    exact Bool.false_ne_true
  by_cases hXe : (X.reverse.dropWhile isPySpace).isEmpty
  · rw [if_pos hXe, hwrev, List.reverse_reverse]
    rw [List.isEmpty_iff] at hXe
    rw [hXe]
    simp
  · rw [if_neg hXe, List.reverse_append, List.reverse_reverse]

theorem pyStripR_cons_of_word {a d : Char} {Z' : List Char}
    (hd : isPySpace d = false) :
    pyStripR (a :: d :: Z') = a :: pyStripR (d :: Z') := by
  unfold pyStripR
  rw [List.reverse_cons, List.dropWhile_append]
  have hne : ¬((d :: Z').reverse.dropWhile isPySpace).isEmpty = true := by
    rw [List.isEmpty_iff, List.dropWhile_eq_nil_iff]
    intro hallsp
    have h1 : isPySpace d = true := hallsp d (by simp)
    rw [hd] at h1
    exact Bool.false_ne_true h1
  rw [if_neg hne, List.reverse_append]
  rfl

theorem pyStripL_eq_pyStripR_of_word {d : Char} (hd : isPySpace d = false) (Z : List Char) :
    pyStripL (d :: Z) = pyStripR (d :: Z) := by
  unfold pyStripL pyStripR
  rw [List.dropWhile_cons, if_neg (by rw [hd]; exact Bool.false_ne_true)]

theorem pyJoinL_cons_cons (sep p q : List Char) (qs : List (List Char)) :
    pyJoinL sep (p :: q :: qs) = p ++ sep ++ pyJoinL sep (q :: qs) := rfl

theorem strip_collapse_join : ∀ (n : Nat) (l : List Char), l.length ≤ n →
    pyStripL (collapseWsL l) = pyJoinL [' '] (wordsOf l) := by
  intro n
  induction n with
  | zero =>
    intro l hl
    rw [List.eq_nil_of_length_eq_zero (Nat.le_zero.mp hl), wordsOf_nil]
    rfl
  | succ n ih =>
    intro l hl
    cases l with
    | nil =>
      rw [wordsOf_nil]
      rfl
    | cons c rest =>
      have hrest : rest.length ≤ n := by
        simp only [List.length_cons] at hl
        omega
      cases hc : isPySpace c with
      | true =>
        unfold collapseWsL
        rw [collapseWsGo_false_space hc, pyStripL_cons_space (by decide),
          collapseWsGo_true, wordsOf_cons_space hc, ← wordsOf_dropWhile rest]
        exact ih (rest.dropWhile isPySpace)
          (le_trans (List.IsSuffix.length_le (List.dropWhile_suffix _)) hrest)
      | false =>
        have hw_all : ∀ x ∈ (c :: rest).takeWhile (fun y => !isPySpace y),
            isPySpace x = false := by
          intro x hx
          have := List.mem_takeWhile_imp hx
          simpa using this
        have hw_ne : (c :: rest).takeWhile (fun y => !isPySpace y) ≠ [] := by
          rw [List.takeWhile_cons, if_pos (by rw [hc]; rfl)]
          exact List.cons_ne_nil _ _
        have hsplit : (c :: rest) =
            (c :: rest).takeWhile (fun y => !isPySpace y) ++
              (c :: rest).dropWhile (fun y => !isPySpace y) :=
          (List.takeWhile_append_dropWhile (fun y => !isPySpace y) (c :: rest)).symm
        have e1 : collapseWsL (c :: rest) =
            (c :: rest).takeWhile (fun y => !isPySpace y) ++
              collapseWsGo false ((c :: rest).dropWhile (fun y => !isPySpace y)) := by
          unfold collapseWsL
          conv_lhs => rw [hsplit]
          exact collapseWsGo_word _ _ hw_all
        rw [e1, pyStripL_word_append _ _ hw_ne hw_all, wordsOf_cons_word hc]
        have htl_eq : (c :: rest).dropWhile (fun y => !isPySpace y) =
            rest.dropWhile (fun y => !isPySpace y) := by
          rw [List.dropWhile_cons, if_pos (by rw [hc]; rfl)]
        rw [htl_eq]
        have htl_len : (rest.dropWhile (fun y => !isPySpace y)).length ≤ rest.length :=
          List.IsSuffix.length_le (List.dropWhile_suffix _)
        cases htl : rest.dropWhile (fun y => !isPySpace y) with
        | nil =>
          rw [wordsOf_nil]
          rw [show collapseWsGo false [] = [] from rfl]
          rw [show pyStripR ([] : List Char) = [] from rfl, List.append_nil]
          rfl
        | cons s t2 =>
          have hs : isPySpace s = true := by
            have := dropWhile_head_false htl
            simpa using this
          rw [collapseWsGo_false_space hs, collapseWsGo_true]
          have ht2_len : t2.length < rest.length := by
            have h2 : (s :: t2).length ≤ rest.length := htl ▸ htl_len
            simp only [List.length_cons] at h2
            omega
          rw [wordsOf_cons_space hs, ← wordsOf_dropWhile t2]
          cases ht2 : t2.dropWhile isPySpace with
          | nil =>
            rw [wordsOf_nil]
            rw [show collapseWsGo false [] = [] from rfl]
            rw [show pyStripR [' '] = [] from rfl, List.append_nil]
            rfl
          | cons d t3 =>
            have hd : isPySpace d = false := dropWhile_head_false ht2
            rw [collapseWsGo_false_word hd]
            rw [pyStripR_cons_of_word hd]
            rw [← pyStripL_eq_pyStripR_of_word hd (collapseWsGo false t3)]
            rw [show (d :: collapseWsGo false t3) = collapseWsL (d :: t3) from
              (collapseWsGo_false_word hd t3).symm]
            have hlen : (d :: t3).length ≤ n := by
              have h1 : (d :: t3).length ≤ t2.length :=
                ht2 ▸ List.IsSuffix.length_le (List.dropWhile_suffix _)
              omega
            rw [ih (d :: t3) hlen]
            rw [wordsOf_cons_word hd]
            rw [pyJoinL_cons_cons]
            simp

/-! ### Crawl-loop lemmas -/

theorem crawlCycle_static (n i : Nat) (s : Rmp.CrawlState) :
    Rmp.crawlCycle s (Rmp.staticEnv n i) =
      ⟨n, if n = s.lastProcessed then s.stagnantLoops + 1 else 0⟩ := by
  show (⟨n, if n > n ∨ false = true then 0
      else if n = s.lastProcessed then s.stagnantLoops + 1 else 0⟩ : Rmp.CrawlState) = _
  rw [if_neg (by simp)]

theorem crawlStates_static_zero (j : Nat) :
    Rmp.crawlStates (Rmp.staticEnv 0) j = ⟨0, j⟩ := by
  induction j with
  | zero => rfl
  | succ k ih =>
    show Rmp.crawlCycle (Rmp.crawlStates (Rmp.staticEnv 0) k) (Rmp.staticEnv 0 k) = _
    rw [ih, crawlCycle_static, if_pos rfl]

theorem crawlStates_static_pos (m : Nat) : ∀ j,
    Rmp.crawlStates (Rmp.staticEnv (m + 1)) (j + 1) = ⟨m + 1, j⟩ := by
  intro j
  induction j with
  | zero =>
    show Rmp.crawlCycle (Rmp.crawlStates (Rmp.staticEnv (m + 1)) 0) (Rmp.staticEnv (m + 1) 0) = _
    rw [crawlCycle_static]
    rw [show Rmp.CrawlState.lastProcessed (Rmp.crawlStates (Rmp.staticEnv (m + 1)) 0) = 0 from rfl]
    rw [if_neg (Nat.succ_ne_zero m)]
  | succ k ih =>
    show Rmp.crawlCycle (Rmp.crawlStates (Rmp.staticEnv (m + 1)) (k + 1))
        (Rmp.staticEnv (m + 1) (k + 1)) = _
    rw [ih, crawlCycle_static, if_pos rfl]

/-- The crawl loop breaks at the end of cycle `c` exactly when the stored
stagnation counter first reaches 4 there. -/
theorem crawlRun_of_states (env : Nat → Rmp.CrawlObs) (c : Nat) (hc0 : 0 < c)
    (hc : 4 ≤ (Rmp.crawlStates env c).stagnantLoops)
    (hmin : ∀ k, k < c → (Rmp.crawlStates env k).stagnantLoops < 4)
    (fuel : Nat) (hfuel : c ≤ fuel) :
    Rmp.crawlRun env fuel = some c := by
  have aux : ∀ fl i, i < c → c ≤ i + fl →
      Rmp.crawlRunAux env fl i (Rmp.crawlStates env i) = some c := by
    intro fl
    induction fl with
    | zero => intro i hi hle; omega
    | succ f ih =>
      intro i hi hle
      show (if 4 ≤ (Rmp.crawlCycle (Rmp.crawlStates env i) (env i)).stagnantLoops
          then some (i + 1)
          else Rmp.crawlRunAux env f (i + 1)
            (Rmp.crawlCycle (Rmp.crawlStates env i) (env i))) = some c
      rw [show Rmp.crawlCycle (Rmp.crawlStates env i) (env i) = Rmp.crawlStates env (i + 1)
        from rfl]
      by_cases hci : i + 1 = c
      · rw [if_pos (hci ▸ hc), hci]
      · have hlt : i + 1 < c := by omega
        rw [if_neg (not_le.mpr (hmin (i + 1) hlt))]
        exact ih (i + 1) hlt (by omega)
  exact aux fuel 0 hc0 (by omega)

/-! ## Claim theorems -/

/-- C4: Ingestion is idempotent: running the ingest over an unchanged file
set a second time leaves the row count of every table (terms, subjects,
courses, instructors, sections, meetings, section_instructors) identical to
the count after the first run. -/
theorem ingest_idempotent (db db1 : Db) (fs : List CsvFile)
    (h : ingestAll db fs = some db1) :
    ∃ db2, ingestAll db1 fs = some db2 ∧ counts db2 = counts db1 :=
  ingestAll_stagnant (ingestAll_post h).2 h

/-- Witness for C4: re-ingesting the sample file over the store it produced
succeeds and changes no table count. -/
theorem ingest_idempotent_witness :
    ∃ db2, ingestAll sampleDb1 [sampleFile1] = some db2 ∧ counts db2 = counts sampleDb1 :=
  ingest_idempotent emptyDb sampleDb1 [sampleFile1] (by decide)

/-- C5: Section upsert keys on `(term, crn)`: an insert hitting an existing
`(term_id, crn)` row overwrites its course linkage, lec/lab, credit range
and both enrollment counts in place and creates no second row; ingesting
crn "10001" at enrollment 20/30 and then again at 25/30 leaves exactly one
section row for that `(term, crn)` with `current_enrollment = 25`. -/
theorem section_upsert_snapshot :
    (∀ (db : Db) (cid tid : Nat) (crn : String) (lec : Option String)
        (cmin cmax : Option PyVal) (maxE curE : Option Int) (sid : Nat),
      findSec db tid crn = some sid →
      ∃ db1, upsert_section_and_get_id db cid tid crn lec cmin cmax maxE curE = (sid, db1) ∧
        db1.sections.length = db.sections.length ∧
        ∃ s1, db1.sections.find? (fun s => s.termId == tid && s.crn == crn) = some s1 ∧
          s1.secId = sid ∧ s1.courseId = cid ∧ s1.lecLab = lec ∧ s1.creditsMin = cmin ∧
          s1.creditsMax = cmax ∧ s1.maxEnr = maxE ∧ s1.curEnr = curE) ∧
    ((ingestAll emptyDb [sampleFile1, sampleFile2]).map (fun d =>
      ((d.sections.filter (fun s => s.termId == 1 && s.crn == "10001")).length,
       (d.sections.filter (fun s => s.termId == 1 && s.crn == "10001")).map (·.curEnr))) =
      some (1, [some 25])) := by
  constructor
  · intro db cid tid crn lec cmin cmax maxE curE sid hf
    unfold findSec at hf
    obtain ⟨s0, h0, hs0⟩ := Option.map_eq_some'.mp hf
    refine ⟨secUpd db cid tid crn lec cmin cmax maxE curE, ?_, ?_, ?_⟩
    · rw [upsert_hit h0, hs0]
    · show (updateFirst (fun s => s.termId == tid && s.crn == crn)
        (secOverwrite cid lec cmin cmax maxE curE) db.sections).length = db.sections.length
      exact updateFirst_length _ _ _
    · refine ⟨secOverwrite cid lec cmin cmax maxE curE s0, ?_, hs0, rfl, rfl, rfl, rfl, rfl, rfl⟩
      show (updateFirst (fun s => s.termId == tid && s.crn == crn)
        (secOverwrite cid lec cmin cmax maxE curE) db.sections).find? _ = _
      exact updateFirst_find? (fun s => s.termId == tid && s.crn == crn)
        (secOverwrite cid lec cmin cmax maxE curE) (fun _ => rfl) h0
  · decide

/-- Witness for C5: the sample store has section "10001" of term 1 with
id 1; re-upserting it in place keeps one row and installs the incoming
values. -/
theorem section_upsert_snapshot_witness :
    ∃ db1, upsert_section_and_get_id sampleDb1 1 1 "10001" (some "LAB") none none
        (some 30) (some 27) = (1, db1) ∧
      db1.sections.length = sampleDb1.sections.length ∧
      ∃ s1, db1.sections.find? (fun s => s.termId == 1 && s.crn == "10001") = some s1 ∧
        s1.secId = 1 ∧ s1.courseId = 1 ∧ s1.lecLab = some "LAB" ∧ s1.creditsMin = none ∧
        s1.creditsMax = none ∧ s1.maxEnr = some 30 ∧ s1.curEnr = some 27 :=
  section_upsert_snapshot.1 sampleDb1 1 1 "10001" (some "LAB") none none
    (some 30) (some 27) 1 (by decide)

/-- C6: re-ingesting a section deletes every meeting owned by its
identifier and inserts exactly the one meeting derived from the current
record; after two runs with a changed pattern, the section owns exactly one
meeting reflecting the latest pattern. -/
theorem meeting_replacement :
    (∀ (db : Db) (tid : Nat) (r : Row), validRow r = true →
      ∃ secid m, findSec (processRow db tid r) tid (r.crn.getD "") = some secid ∧
        m.sectionId = secid ∧ m.startTime = denull r.startTime ∧
        m.endTime = denull r.endTime ∧ m.days = denull r.days ∧ m.bldg = denull r.bldg ∧
        m.room = denull r.room ∧ m.location = denull r.location ∧
        (processRow db tid r).meetings.filter (fun x => x.sectionId == secid) = [m] ∧
        (processRow db tid r).meetings.filter (fun x => !(x.sectionId == secid)) =
          db.meetings.filter (fun x => !(x.sectionId == secid))) ∧
    ((ingestAll emptyDb [sampleFile1, sampleFile2]).map (fun d =>
        (d.meetings.filter (fun x => x.sectionId == 1)).map (fun x => (x.days, x.startTime))) =
      some [(some "TR", some "09:00")]) := by
  constructor
  · intro db tid r hv
    have hne : ¬ norm r.subj = "" := is_missing_false_ne (valid_parts hv).1
    obtain ⟨sid, db1, e1, f1, st1, hm1⟩ := get_subject_id_spec db r.subj hne
    obtain ⟨cid, db2, e2, f2, st2, hm2⟩ := get_course_id_spec db1 sid r.number r.title
    obtain ⟨secid, db3, e3, f3, st3, hm3⟩ := upsert_spec db2 cid tid (r.crn.getD "") r.lecLab
      (AllTerms.parse_credits r.credits).1 (AllTerms.parse_credits r.credits).2
      (to_int r.maxEnr) (to_int r.curEnr)
    rw [processRow_eq_phases hv e1 e2 e3]
    have hmdb : db3.meetings = db.meetings := (hm3.trans hm2).trans hm1
    have hIM : (instrPhase (meetReplace db3 secid r) secid r).meetings =
        (meetReplace db3 secid r).meetings :=
      (instrPhase_frames (meetReplace db3 secid r) secid r).2.2.2.2
    have hX : (meetReplace db3 secid r).meetings =
        db3.meetings.filter (fun m => !(m.sectionId == secid)) ++ [meetingFor db3 secid r] := rfl
    refine ⟨secid, meetingFor db3 secid r,
      findSec_stable (StepR_trans (step_meetReplace db3 secid r)
        (step_instrPhase (meetReplace db3 secid r) secid r)).1 f3,
      rfl, rfl, rfl, rfl, rfl, rfl, rfl, ?_, ?_⟩
    · rw [hIM, hX, List.filter_append,
        filter_not_filter (fun (m : MeetingRow) => m.sectionId == secid) db3.meetings]
      rw [List.filter_cons]
      rw [if_pos (by simp [meetingFor])]
      rfl
    · rw [hIM, hX, List.filter_append,
        filter_not_idem (fun (m : MeetingRow) => m.sectionId == secid) db3.meetings]
      rw [List.filter_cons]
      rw [if_neg (by simp [meetingFor])]
      rw [hmdb]
      simp
  · decide

/-- Witness for C6: processing the sample row against the sample store. -/
theorem meeting_replacement_witness :
    ∃ secid m, findSec (processRow sampleDb1 1 sampleRow2) 1 (sampleRow2.crn.getD "") =
        some secid ∧
      m.sectionId = secid ∧ m.startTime = denull sampleRow2.startTime ∧
      m.endTime = denull sampleRow2.endTime ∧ m.days = denull sampleRow2.days ∧
      m.bldg = denull sampleRow2.bldg ∧ m.room = denull sampleRow2.room ∧
      m.location = denull sampleRow2.location ∧
      (processRow sampleDb1 1 sampleRow2).meetings.filter (fun x => x.sectionId == secid) =
        [m] ∧
      (processRow sampleDb1 1 sampleRow2).meetings.filter (fun x => !(x.sectionId == secid)) =
        sampleDb1.meetings.filter (fun x => !(x.sectionId == secid)) :=
  meeting_replacement.1 sampleDb1 1 sampleRow2 (by decide)

/-- C10: re-upserting a section with an existing `(term_id, crn)` updates
the conflicting row in place and never changes its `section_id`, so every
`section_instructors` link and every meeting ownership established before
still refers to the same section row afterwards. -/
theorem section_upsert_preserves_identity :
    ∀ (db : Db) (cid tid : Nat) (crn : String) (lec : Option String)
      (cmin cmax : Option PyVal) (maxE curE : Option Int) (sid : Nat),
      findSec db tid crn = some sid →
      ∃ db1, upsert_section_and_get_id db cid tid crn lec cmin cmax maxE curE = (sid, db1) ∧
        db1.sections.map (·.secId) = db.sections.map (·.secId) ∧
        db1.meetings = db.meetings ∧ db1.links = db.links ∧
        (∀ x, (∃ s ∈ db.sections, s.secId = x) → ∃ s1 ∈ db1.sections, s1.secId = x) := by
  intro db cid tid crn lec cmin cmax maxE curE sid hf
  unfold findSec at hf
  obtain ⟨s0, h0, hs0⟩ := Option.map_eq_some'.mp hf
  have hmap : (secUpd db cid tid crn lec cmin cmax maxE curE).sections.map (·.secId) =
      db.sections.map (·.secId) := by
    show (updateFirst (fun s => s.termId == tid && s.crn == crn)
      (secOverwrite cid lec cmin cmax maxE curE) db.sections).map _ = _
    exact updateFirst_map (fun s => s.termId == tid && s.crn == crn)
      (secOverwrite cid lec cmin cmax maxE curE) (fun s => s.secId) (fun _ => rfl) db.sections
  refine ⟨secUpd db cid tid crn lec cmin cmax maxE curE, ?_, hmap, rfl, rfl, ?_⟩
  · rw [upsert_hit h0, hs0]
  · intro x ⟨s, hsmem, hsid⟩
    have hx : x ∈ (secUpd db cid tid crn lec cmin cmax maxE curE).sections.map (·.secId) := by
      rw [hmap]
      exact List.mem_map.mpr ⟨s, hsmem, hsid⟩
    obtain ⟨s1, hmem1, hid1⟩ := List.mem_map.mp hx
    exact ⟨s1, hmem1, hid1⟩

/-- Witness for C10: re-upserting the sample section keeps its id and the
link and meeting tables. -/
theorem section_upsert_preserves_identity_witness :
    ∃ db1, upsert_section_and_get_id sampleDb1 1 1 "10001" none none none none none =
        (1, db1) ∧
      db1.sections.map (·.secId) = sampleDb1.sections.map (·.secId) ∧
      db1.meetings = sampleDb1.meetings ∧ db1.links = sampleDb1.links ∧
      (∀ x, (∃ s ∈ sampleDb1.sections, s.secId = x) → ∃ s1 ∈ db1.sections, s1.secId = x) :=
  section_upsert_preserves_identity sampleDb1 1 1 "10001" none none none none none 1
    (by decide)

/-- C2: the spec says canonicalization strips a trailing period after a
single uppercase letter, so that "Smith, John A." becomes "John A Smith";
in the code the regex `\b([A-Za-z])\.\b` demands a word character after the
period, so the period of a trailing initial is never stripped: the
canonical form of "Smith, John A." is "John A. Smith", while an inner
initial, as in "Smith, J.R.", does lose its period. -/
theorem normalize_name_trailing_period_bug :
    Rmp.normalize_name "Smith, John A." = "John A. Smith" ∧
    Rmp.normalize_name "Smith, John A." ≠ "John A Smith" ∧
    Rmp.normalize_name "Smith, J.R." = "JR. Smith" :=
  ⟨by decide, by decide, by decide⟩

/-- C3: each scan/expand cycle increments the stagnation counter exactly on
a stagnant cycle (no growth in visible card count, no successful click) and
resets it otherwise; against a listing that never grows and never expands,
the crawl terminates at the first cycle whose end-of-cycle counter reaches 4
(cycle 4 for an empty listing, cycle 5 otherwise — the very first cycle sees
the count change from the initial 0), having seen exactly 4 stagnant cycles
and fewer than 4 on every earlier cycle. -/
theorem crawl_stagnation_termination :
    (∀ (s : Rmp.CrawlState) (o : Rmp.CrawlObs),
      (Rmp.crawlCycle s o).stagnantLoops =
        if Rmp.isStagnantCycle s o then s.stagnantLoops + 1 else 0) ∧
    (∀ n fuel, 5 ≤ fuel →
      Rmp.crawlRun (Rmp.staticEnv n) fuel = some (if n = 0 then 4 else 5) ∧
      Rmp.stagnantCount (Rmp.staticEnv n) (if n = 0 then 4 else 5) = 4 ∧
      ∀ k, k < (if n = 0 then 4 else 5) →
        (Rmp.crawlStates (Rmp.staticEnv n) k).stagnantLoops < 4) := by
  constructor
  · intro s o
    by_cases hg : o.newTotal > o.total
    · simp [Rmp.crawlCycle, Rmp.isStagnantCycle, hg]
    · by_cases hcl : o.clicked = true
      · simp [Rmp.crawlCycle, Rmp.isStagnantCycle, hcl]
      · by_cases he : o.total = s.lastProcessed
        · simp [Rmp.crawlCycle, Rmp.isStagnantCycle, hg, hcl, he]
          split <;> split <;> omega
        · simp [Rmp.crawlCycle, Rmp.isStagnantCycle, hg, hcl, he]
  · intro n fuel hf
    cases n with
    | zero =>
      refine ⟨?_, ?_, ?_⟩
      · rw [if_pos rfl]
        refine crawlRun_of_states _ 4 (by omega) ?_ ?_ fuel (by omega)
        · rw [crawlStates_static_zero]
        · intro k hk
          rw [crawlStates_static_zero]
          exact hk
      · rw [if_pos rfl]
        decide
      · rw [if_pos rfl]
        intro k hk
        rw [crawlStates_static_zero]
        exact hk
    | succ m =>
      have hmin : ∀ k, k < 5 → (Rmp.crawlStates (Rmp.staticEnv (m + 1)) k).stagnantLoops < 4 := by
        intro k hk
        cases k with
        | zero =>
          show (0 : Nat) < 4
          decide
        | succ j =>
          have e : Rmp.crawlStates (Rmp.staticEnv (m + 1)) (j + 1) = ⟨m + 1, j⟩ :=
            crawlStates_static_pos m j
          rw [e]
          show j < 4
          omega
      refine ⟨?_, ?_, ?_⟩
      · rw [if_neg (Nat.succ_ne_zero m)]
        refine crawlRun_of_states _ 5 (by omega) ?_ hmin fuel hf
        have e : Rmp.crawlStates (Rmp.staticEnv (m + 1)) 5 = ⟨m + 1, 4⟩ :=
          crawlStates_static_pos m 4
        rw [e]
      · rw [if_neg (Nat.succ_ne_zero m)]
        have e0 : Rmp.crawlStates (Rmp.staticEnv (m + 1)) 0 = ⟨0, 0⟩ := rfl
        have e1 : Rmp.crawlStates (Rmp.staticEnv (m + 1)) 1 = ⟨m + 1, 0⟩ :=
          crawlStates_static_pos m 0
        have e2 : Rmp.crawlStates (Rmp.staticEnv (m + 1)) 2 = ⟨m + 1, 1⟩ :=
          crawlStates_static_pos m 1
        have e3 : Rmp.crawlStates (Rmp.staticEnv (m + 1)) 3 = ⟨m + 1, 2⟩ :=
          crawlStates_static_pos m 2
        have e4 : Rmp.crawlStates (Rmp.staticEnv (m + 1)) 4 = ⟨m + 1, 3⟩ :=
          crawlStates_static_pos m 3
        show ((List.range 5).filter
          (fun i => Rmp.isStagnantCycle (Rmp.crawlStates (Rmp.staticEnv (m + 1)) i)
            (Rmp.staticEnv (m + 1) i))).length = 4
        rw [show List.range 5 = [0, 1, 2, 3, 4] from by decide]
        simp [List.filter, e0, e1, e2, e3, e4, Rmp.isStagnantCycle, Rmp.staticEnv,
          Nat.succ_ne_zero, lt_irrefl]
      · rw [if_neg (Nat.succ_ne_zero m)]
        exact hmin

/-- Witness for C3: a static 7-card listing with 12 fuel terminates at
cycle 5 with exactly 4 stagnant cycles. -/
theorem crawl_stagnation_termination_witness :
    Rmp.crawlRun (Rmp.staticEnv 7) 12 = some (if 7 = 0 then 4 else 5) ∧
    Rmp.stagnantCount (Rmp.staticEnv 7) (if 7 = 0 then 4 else 5) = 4 := by
  have h := crawl_stagnation_termination.2 7 12 (by decide)
  exact ⟨h.1, h.2.1⟩

/-- C7 (counterexample): the current-term loader's credits parsing does not
accept the "to" separator: "1 to 18" yields `(None, None)` there, though the
all-terms parser returns `(1.0, 18.0)` as the spec describes. -/
theorem parse_credits_to_counterexample :
    UvmCurrent.parse_credits (some "1 to 18") = (none, none) ∧
    AllTerms.parse_credits (some "1 to 18") =
      (some (PyVal.num 1), some (PyVal.num 18)) :=
  ⟨by decide, by decide⟩

/-- C7 (amended): the all-terms parser accepts a bare number and ranges
separated by "-", "to", an en dash or an em dash; the current-term parser
accepts a bare number and only the "-" separator; both always return a pair
— two values or `(None, None)` — and never raise. -/
theorem parse_credits_amended :
    AllTerms.parse_credits (some "1 to 18") = (some (PyVal.num 1), some (PyVal.num 18)) ∧
    AllTerms.parse_credits (some "3") = (some (PyVal.num 3), some (PyVal.num 3)) ∧
    AllTerms.parse_credits (some "") = (none, none) ∧
    AllTerms.parse_credits (some "2 – 4") = (some (PyVal.num 2), some (PyVal.num 4)) ∧
    AllTerms.parse_credits (some "2 — 4") = (some (PyVal.num 2), some (PyVal.num 4)) ∧
    AllTerms.parse_credits (some "1 - 18") = (some (PyVal.num 1), some (PyVal.num 18)) ∧
    AllTerms.parse_credits none = (none, none) ∧
    AllTerms.parse_credits (some "N/A") = (none, none) ∧
    UvmCurrent.parse_credits (some "1 - 18") = (some (PyVal.num 1), some (PyVal.num 18)) ∧
    UvmCurrent.parse_credits (some "3") = (some (PyVal.num 3), some (PyVal.num 3)) ∧
    UvmCurrent.parse_credits (some "") = (none, none) ∧
    UvmCurrent.parse_credits none = (none, none) ∧
    (∀ s, AllTerms.parse_credits s = (none, none) ∨
      ∃ a b, AllTerms.parse_credits s = (some a, some b)) ∧
    (∀ s, UvmCurrent.parse_credits s = (none, none) ∨
      ∃ a b, UvmCurrent.parse_credits s = (some a, some b)) := by
  refine ⟨by decide, by decide, by decide, by decide, by decide, by decide, by decide,
    by decide, by decide, by decide, by decide, by decide, ?_, ?_⟩
  · intro s
    unfold AllTerms.parse_credits
    dsimp only
    split
    · left; rfl
    · split
      · right; exact ⟨_, _, rfl⟩
      · split
        · right; exact ⟨_, _, rfl⟩
        · left; rfl
  · intro s
    unfold UvmCurrent.parse_credits
    dsimp only
    split
    · left; rfl
    · split
      · left; rfl
      · split
        · left; rfl
        · split
          · split
            · right; exact ⟨_, _, rfl⟩
            · left; rfl
          · split
            · right; exact ⟨_, _, rfl⟩
            · left; rfl

/-- C8 (counterexample): the ingest filename fallback recognizes only the
semester-first pattern: a year-first filename yields `("Unknown", None)`
from `term_from_filename`, even though the cleaning script's
`parse_term_from_filename` accepts that order. -/
theorem term_filename_order_counterexample :
    term_from_filename "uvm_2005_fall_cleaned.csv" = ("Unknown", none) ∧
    parse_term_from_filename "uvm_2005_fall_cleaned.csv" = some ("Fall", 2005) :=
  ⟨by decide, by decide⟩

/-- C8 (amended): the ingest fallback `term_from_filename` matches
`uvm_<semester>_<4-digit-year>_cleaned.csv` case-insensitively, returning
the title-cased semester and the year, but only in semester-first order;
the cleaning script's `parse_term_from_filename` accepts both orders,
case-insensitively, in title case; and `ingest_csv` falls back to the
filename exactly when the Semester or Year column is missing. -/
theorem term_filename_amended :
    (∀ a b c d : Char, a.isDigit = true → b.isDigit = true → c.isDigit = true →
      d.isDigit = true →
      term_from_filename ⟨"uvm_".data ++ "fall".data ++ '_' :: a :: b :: c :: d ::
          "_cleaned.csv".data⟩ = ("Fall", some (digitsVal [a, b, c, d]))) ∧
    term_from_filename "uvm_FaLl_2025_cleaned.csv" = ("Fall", some 2025) ∧
    term_from_filename "UVM_spring_2021_cleaned.csv" = ("Spring", some 2021) ∧
    term_from_filename "uvm_WINTER_1999_cleaned.csv" = ("Winter", some 1999) ∧
    term_from_filename "uvm_summer_2010_cleaned.csv" = ("Summer", some 2010) ∧
    parse_term_from_filename "uvm_fall_2019_cleaned.csv" = some ("Fall", 2019) ∧
    parse_term_from_filename "enrollment 2019 FALL.xlsx" = some ("Fall", 2019) ∧
    parse_term_from_filename "SPRING-2021_data.csv" = some ("Spring", 2021) ∧
    parse_term_from_filename "2021 spring.csv" = some ("Spring", 2021) ∧
    parse_term_from_filename "no_term_here.csv" = none ∧
    (∀ (name : String) (r0 : Row),
      (is_missing r0.semester || is_missing r0.year) = true →
      derivTerm name r0 =
        ((term_from_filename name).1, (term_from_filename name).2.map Int.ofNat)) := by
  refine ⟨?_, by decide, by decide, by decide, by decide, by decide, by decide, by decide,
    by decide, by decide, ?_⟩
  · intro a b c d ha hb hc hd
    have key : take4Digits (a :: b :: c :: d :: "_cleaned.csv".data) =
        some ([a, b, c, d], "_cleaned.csv".data) := by
      show (if (a.isDigit && b.isDigit && c.isDigit && d.isDigit) = true then
          some ([a, b, c, d], "_cleaned.csv".data) else none) =
        some ([a, b, c, d], "_cleaned.csv".data)
      rw [ha, hb, hc, hd]
      rfl
    unfold term_from_filename
    show (match Option.bind (take4Digits (a :: b :: c :: d :: "_cleaned.csv".data))
        (fun r4 => Option.bind (matchCI "_cleaned.csv".data r4.2)
          (fun _ => some ("fall".data, r4.1))) with
      | some (sem, y) => ((⟨pyCapitalizeL sem⟩ : String), some (digitsVal y))
      | none => ("Unknown", none)) = ("Fall", some (digitsVal [a, b, c, d]))
    rw [key]
    rfl
  · intro name r0 h
    unfold derivTerm
    rw [if_pos h]

/-- Witness for C8: the symbolic pattern at year digits 2025 and the
column-missing fallback at a concrete row. -/
theorem term_filename_amended_witness :
    term_from_filename ⟨"uvm_".data ++ "fall".data ++ '_' :: '2' :: '0' :: '2' :: '5' ::
        "_cleaned.csv".data⟩ = ("Fall", some (digitsVal ['2', '0', '2', '5'])) ∧
    derivTerm "x.csv" { sampleRow1 with semester := none } =
      ((term_from_filename "x.csv").1, (term_from_filename "x.csv").2.map Int.ofNat) :=
  ⟨term_filename_amended.1 '2' '0' '2' '5' (by decide) (by decide) (by decide) (by decide),
   term_filename_amended.2.2.2.2.2.2.2.2.2.2 "x.csv" { sampleRow1 with semester := none }
     (by decide)⟩

/-- C9: a document whose rating-distribution block is missing parses
without error to a result whose five distribution buckets are all `None`,
and every other field of the result is exactly what the same document with
a distribution block would produce — removing the block changes nothing
else. -/
theorem profile_missing_distribution :
    ∀ (d : ProfileDoc) (lim : Option Nat),
      (parse_professor_page { d with meterList := none } lim).rating_distribution =
        RatingDist.allAbsent ∧
      parse_professor_page { d with meterList := none } lim =
        { parse_professor_page d lim with rating_distribution := RatingDist.allAbsent } := by
  intro d lim
  cases d
  exact ⟨rfl, rfl⟩

/-- C1 (counterexample): the matching key keeps collapsed single spaces —
the regex deletes only characters outside `[a-z\\s]` — so the key of
"Smith, John A." is "john a smith", not the spec's space-free
"johnasmith". -/
theorem key_name_spaces_counterexample :
    Rmp.key_name "Smith, John A." = "john a smith" ∧
    Rmp.key_name "Smith, John A." ≠ "johnasmith" :=
  ⟨by decide, by decide⟩

/-- C1 (amended): for every raw name, the matching key equals the lowercase
of the canonical form with every character that is neither a lowercase
letter nor whitespace removed and the whitespace-separated words joined by
single spaces; in particular "Smith, John A." keys to "john a smith". -/
theorem key_name_amended :
    (∀ s, Rmp.key_name s = specMatchingKey (Rmp.normalize_name s)) ∧
    Rmp.key_name "Smith, John A." = "john a smith" := by
  constructor
  · intro s
    unfold Rmp.key_name specMatchingKey
    dsimp only
    exact congrArg String.mk (strip_collapse_join _ _ le_rfl)
  · decide

end CatBase
